import Mathlib

/-!
Shallow embedding of the authenticated-data-package subsystem of
psiphon/common/authPackage.go.

Byte strings (Go strings and []byte values) are modelled as List Nat, with
each element an octet value. External library primitives from the Go
standard library (crypto/sha256, crypto/rsa, crypto/x509, encoding/base64,
compress/zlib, encoding/json's Marshal) are pure deterministic functions of
their byte inputs and are modelled as parameters collected in the Prims
structure; the repository's own code is translated definition-for-definition
below. The repository's Compress/Decompress helpers (zlib wrappers) and
ContextError are not among the provided source files; Compress/Decompress
are modelled from the spec as the compress/decompress parameters, and
ContextError, which only wraps an error with caller context, is modelled as
the identity on the structured error type PkgErr.
-/

namespace AuthPackage

/-- Error outcomes of the package subsystem. Go reports errors as strings
wrapped by ContextError; we use one constructor per distinct error site,
with the offending byte or key where the Go message includes it. -/
inductive PkgErr where
  | unexpectedChar (st : Nat) (b : Nat)
  | unexpectedEOF
  | escapeUnsupported
  | base64Error
  | unexpectedKey (k : List Nat)
  | missingField
  | invalidKeyBase64
  | invalidKeyParse
  | invalidKeyType
  | keyMismatch
  | signatureInvalid
  | decompressError
  | jsonError
  | nilPanic
  | signError
  | outOfFuel
deriving DecidableEq, Repr

/-- Parser states of limitedJSONStreamer.Stream. The Go constant
stateJSONSeekingStringValueEnd is assigned but immediately superseded before
the next byte is read (the handler runs and the state moves to
stateJSONSeekingNextPair or the function returns), so it is omitted. -/
inductive JState where
  | seekObjectStart
  | seekKeyStart
  | seekKeyEnd
  | seekColon
  | seekValueStart
  | seekNextPair
  | objectEnd
deriving DecidableEq, Repr

/-- Numeric tag of a parser state, used inside unexpectedChar errors so that
distinct Go error messages stay distinct. -/
def JState.tag : JState → Nat
  | .seekObjectStart => 0
  | .seekKeyStart => 1
  | .seekKeyEnd => 2
  | .seekColon => 3
  | .seekValueStart => 4
  | .seekNextPair => 5
  | .objectEnd => 6

/-- isWhitespace from limitedJSONStreamer.Stream: space, tab, CR, LF. -/
def isWhitespace (b : Nat) : Bool :=
  b == 32 || b == 9 || b == 13 || b == 10

/-- ASCII bytes of the Go string literal for the JSON member name data. -/
def dataKey : List Nat := [100, 97, 116, 97]

/-- ASCII bytes of the member name signingPublicKeyDigest. -/
def signingPublicKeyDigestKey : List Nat :=
  [115, 105, 103, 110, 105, 110, 103, 80, 117, 98, 108, 105, 99,
   75, 101, 121, 68, 105, 103, 101, 115, 116]

/-- ASCII bytes of the member name signature. -/
def signatureKey : List Nat := [115, 105, 103, 110, 97, 116, 117, 114, 101]

/-- The AuthenticatedDataPackage struct: data, signingPublicKeyDigest,
signature. The []byte fields are byte lists; a nil slice and an empty slice
are identified, which is faithful for every use in the translated code
(bytes.Compare and rsa.VerifyPKCS1v15 treat nil as empty). -/
structure AuthenticatedDataPackage where
  Data : List Nat
  SigningPublicKeyDigest : List Nat
  Signature : List Nat
deriving DecidableEq, Repr

instance : Inhabited AuthenticatedDataPackage := ⟨⟨[], [], []⟩⟩

/-- External-library primitives used by authPackage.go, as pure functions.
sha256 is crypto/sha256 (a function of the full byte stream fed to the
hash); rsaSignPKCS1v15 and rsaVerifyPKCS1v15 are crypto/rsa keyed by the
DER bytes of the key; parsePKIXPublicKey, isRSAPublicKey and
parsePKCS1PrivateKey are the crypto/x509 parsers (success only);
base64Decode is encoding/base64 StdEncoding.DecodeString; compress and
decompress are the repository's zlib wrappers, modelled from the spec
(section 4.6: zlib codec; decompression failure surfaces as an error);
marshalPackage is encoding/json Marshal applied to an
AuthenticatedDataPackage value. -/
structure Prims where
  sha256 : List Nat → List Nat
  rsaSignPKCS1v15 : List Nat → List Nat → Option (List Nat)
  rsaVerifyPKCS1v15 : List Nat → List Nat → List Nat → Bool
  parsePKIXPublicKey : List Nat → Bool
  isRSAPublicKey : List Nat → Bool
  parsePKCS1PrivateKey : List Nat → Bool
  base64Decode : List Nat → Option (List Nat)
  compress : List Nat → List Nat
  decompress : List Nat → Option (List Nat)
  marshalPackage : AuthenticatedDataPackage → List Nat

/-- limitedJSONValueStreamer state: the eof flag and the remaining bytes of
the shared underlying reader. -/
structure limitedJSONValueStreamer where
  eof : Bool
  stream : List Nat
deriving DecidableEq, Repr

/-- Result code of a single Read call: no error (buffer filled), io.EOF, or
the unsupported-escaped-character error. -/
inductive ReadErr where
  | eofMark
  | escapeErr
deriving DecidableEq, Repr

/-- The byte-filling loop of limitedJSONValueStreamer.Read for a buffer of
k bytes, entered with the eof flag clear: reads the underlying source one
byte at a time; an unescaped quote is consumed, sets the eof flag and ends
the read with io.EOF; a backslash is consumed and ends the read with the
escape error (eof flag left clear); exhaustion of the source surfaces the
underlying io.EOF without setting the flag. Returns the bytes delivered to
the caller, the streamer state after the call, and the error. -/
def vsReadLoop : Nat → limitedJSONValueStreamer →
    List Nat × limitedJSONValueStreamer × Option ReadErr
  | 0, vs => ([], vs, none)
  | k + 1, vs =>
    match vs.stream with
    | [] => ([], vs, some .eofMark)
    | b :: rest =>
      if b = 34 then ([], ⟨true, rest⟩, some .eofMark)
      else if b = 92 then ([], ⟨vs.eof, rest⟩, some .escapeErr)
      else
        match vsReadLoop k ⟨vs.eof, rest⟩ with
        | (bs, vs1, e) => (b :: bs, vs1, e)

/-- limitedJSONValueStreamer.Read with a k-byte buffer. When the eof flag is
already set the call returns 0 bytes and io.EOF without touching the
source. -/
def vsRead (vs : limitedJSONValueStreamer) (k : Nat) :
    List Nat × limitedJSONValueStreamer × Option ReadErr :=
  if vs.eof then ([], vs, some .eofMark) else vsReadLoop k vs

/-- Draining a fresh limitedJSONValueStreamer to end-of-input, as io.Copy
and ioutil.ReadAll do: collect bytes up to and excluding the terminating
quote, which is consumed; a backslash fails with the escape error;
exhaustion of the underlying source before a quote is a clean EOF, so the
bytes read so far are returned (ReadAll and io.Copy treat io.EOF as
success). Returns the value bytes and the source bytes after the quote. -/
def readStringValue : List Nat → Except PkgErr (List Nat × List Nat)
  | [] => .ok ([], [])
  | b :: rest =>
    if b = 34 then .ok ([], rest)
    else if b = 92 then .error .escapeUnsupported
    else
      match readStringValue rest with
      | .ok (v, r) => .ok (b :: v, r)
      | .error e => .error e

/-- The content a caller obtains by reading a captured value reader to
end-of-input, discarding the position where the source is left. -/
def drainValue (p : List Nat) : Except PkgErr (List Nat) :=
  Except.map Prod.fst (readStringValue p)

/-- A streamer handler: receives the key bytes, the remaining bytes of the
shared underlying reader (positioned just after the value's opening quote)
and the handler state; returns the continue flag, the remaining bytes after
whatever the handler consumed through its value reader, and the updated
state. -/
def JHandler (σ : Type) : Type :=
  List Nat → List Nat → σ → Except PkgErr (Bool × List Nat × σ)

/-- The byte-at-a-time loop of limitedJSONStreamer.Stream. fuel bounds the
number of iterations (one byte of the underlying reader is consumed per
iteration); every entry point supplies fuel exceeding the stream length, so
the outOfFuel branch is unreachable there. kb is the key buffer. Reaching
end-of-input in any state other than objectEnd fails with unexpected EOF;
in objectEnd it is success. A handler returning continue=false halts
streaming immediately with no error. -/
def streamAux {σ : Type} (h : JHandler σ) :
    Nat → JState → List Nat → List Nat → σ → Except PkgErr σ
  | 0, _, _, _, _ => .error .outOfFuel
  | _ + 1, st, _, [], s =>
    if st = .objectEnd then .ok s else .error .unexpectedEOF
  | f + 1, st, kb, b :: rest, s =>
    match st with
    | .seekObjectStart =>
      if b = 123 then streamAux h f .seekKeyStart kb rest s
      else if isWhitespace b then streamAux h f .seekObjectStart kb rest s
      else .error (.unexpectedChar (JState.seekObjectStart).tag b)
    | .seekKeyStart =>
      if b = 34 then streamAux h f .seekKeyEnd [] rest s
      else if isWhitespace b then streamAux h f .seekKeyStart kb rest s
      else .error (.unexpectedChar (JState.seekKeyStart).tag b)
    | .seekKeyEnd =>
      if b = 92 then .error .escapeUnsupported
      else if b = 34 then streamAux h f .seekColon kb rest s
      else streamAux h f .seekKeyEnd (kb ++ [b]) rest s
    | .seekColon =>
      if b = 58 then streamAux h f .seekValueStart kb rest s
      else if isWhitespace b then streamAux h f .seekColon kb rest s
      else .error (.unexpectedChar (JState.seekColon).tag b)
    | .seekValueStart =>
      if b = 34 then
        match h kb rest s with
        | .error e => .error e
        | .ok (cont, rest1, s1) =>
          if cont then streamAux h f .seekNextPair kb rest1 s1 else .ok s1
      else if isWhitespace b then streamAux h f .seekValueStart kb rest s
      else .error (.unexpectedChar (JState.seekValueStart).tag b)
    | .seekNextPair =>
      if b = 44 then streamAux h f .seekKeyStart kb rest s
      else if b = 125 then streamAux h f .objectEnd kb rest s
      else if isWhitespace b then streamAux h f .seekNextPair kb rest s
      else .error (.unexpectedChar (JState.seekNextPair).tag b)
    | .objectEnd =>
      if isWhitespace b then streamAux h f .objectEnd kb rest s
      else .error (.unexpectedChar (JState.objectEnd).tag b)

/-- streamAux with the canonical fuel for its stream, one more than the
stream length. -/
def runS {σ : Type} (h : JHandler σ) (st : JState) (kb l : List Nat) (s : σ) :
    Except PkgErr σ :=
  streamAux h (l.length + 1) st kb l s

/-- limitedJSONStreamer.Stream: run the state machine from
stateJSONSeekingObjectStart with an empty key buffer. -/
def streamJSON {σ : Type} (h : JHandler σ) (l : List Nat) (s : σ) :
    Except PkgErr σ :=
  runS h .seekObjectStart [] l s

/-- jsonReadBase64Value from StreamingReadAuthenticatedDataPackage: read the
value stream fully and base64-decode it. -/
def jsonReadBase64Value (prims : Prims) (l : List Nat) :
    Except PkgErr (List Nat × List Nat) :=
  match readStringValue l with
  | .error e => .error e
  | .ok (v, rest) =>
    match prims.base64Decode v with
    | none => .error .base64Error
    | some d => .ok (d, rest)

/-- The local variables of one pass of the streaming verifier. hashInput is
the sequence of bytes written into the running SHA-256 hash; the two Option
fields model the jsonSigningPublicKey and jsonSignature locals, none for
the Go nil slice. -/
structure Pass0State where
  hashInput : List Nat
  jsonSigningPublicKey : Option (List Nat)
  jsonSignature : Option (List Nat)
deriving DecidableEq, Repr

/-- Pass-1 locals: the captured jsonData reader (the position of the
underlying stream just after the data value's opening quote), plus the same
two collected fields, which pass 1 also decodes when it meets them before
the data member. -/
structure Pass1State where
  jsonData : Option (List Nat)
  jsonSigningPublicKey : Option (List Nat)
  jsonSignature : Option (List Nat)
deriving DecidableEq, Repr

/-- The jsonHandler closure for pass == 0: the data value is copied into the
hash and streaming continues; signingPublicKeyDigest and signature are read
fully and base64-decoded; any other key fails. -/
def pass0Handler (prims : Prims) : JHandler Pass0State := fun key rest s =>
  if key = dataKey then
    match readStringValue rest with
    | .error e => .error e
    | .ok (v, rest1) => .ok (true, rest1, { s with hashInput := s.hashInput ++ v })
  else if key = signingPublicKeyDigestKey then
    match jsonReadBase64Value prims rest with
    | .error e => .error e
    | .ok (d, rest1) => .ok (true, rest1, { s with jsonSigningPublicKey := some d })
  else if key = signatureKey then
    match jsonReadBase64Value prims rest with
    | .error e => .error e
    | .ok (d, rest1) => .ok (true, rest1, { s with jsonSignature := some d })
  else .error (.unexpectedKey key)

/-- The jsonHandler closure for pass == 1: on data the value reader is
captured (its position recorded) and streaming halts with continue=false;
the two signature-related keys are handled exactly as in pass 0; any other
key fails. -/
def pass1Handler (prims : Prims) : JHandler Pass1State := fun key rest s =>
  if key = dataKey then .ok (false, rest, { s with jsonData := some rest })
  else if key = signingPublicKeyDigestKey then
    match jsonReadBase64Value prims rest with
    | .error e => .error e
    | .ok (d, rest1) => .ok (true, rest1, { s with jsonSigningPublicKey := some d })
  else if key = signatureKey then
    match jsonReadBase64Value prims rest with
    | .error e => .error e
    | .ok (d, rest1) => .ok (true, rest1, { s with jsonSignature := some d })
  else .error (.unexpectedKey key)

/-- Initial pass-0 locals: empty hash, nil collected fields. -/
def initialPass0 : Pass0State := ⟨[], none, none⟩

/-- Initial pass-1 locals. -/
def initialPass1 : Pass1State := ⟨none, none, none⟩

/-- Pass 0 of StreamingReadAuthenticatedDataPackage over the decompressed
bytes: stream the JSON collecting the hash, digest and signature, then in
source order require both collected fields present, base64-decode and parse
the caller's public key, require it to be RSA, compare the collected digest
against SHA-256 of the base64 public-key characters, and verify the RSA
signature over the final hash state. -/
def pass0Run (prims : Prims) (plain pk : List Nat) : Except PkgErr Unit :=
  match streamJSON (pass0Handler prims) plain initialPass0 with
  | .error e => .error e
  | .ok st =>
    match st.jsonSigningPublicKey, st.jsonSignature with
    | some dg, some sg =>
      match prims.base64Decode pk with
      | none => .error .invalidKeyBase64
      | some der =>
        if prims.parsePKIXPublicKey der = false then .error .invalidKeyParse
        else if prims.isRSAPublicKey der = false then .error .invalidKeyType
        else if dg ≠ prims.sha256 pk then .error .keyMismatch
        else if prims.rsaVerifyPKCS1v15 der (prims.sha256 st.hashInput) sg = false then
          .error .signatureInvalid
        else .ok ()
    | _, _ => .error .missingField

/-- Pass 1 of StreamingReadAuthenticatedDataPackage over the decompressed
bytes: stream again until the data member is captured; if no data member was
seen the missing-field error is returned, otherwise the captured reader
position is the payload handed to the caller. -/
def pass1Run (prims : Prims) (plain : List Nat) : Except PkgErr (List Nat) :=
  match streamJSON (pass1Handler prims) plain initialPass1 with
  | .error e => .error e
  | .ok st =>
    match st.jsonData with
    | none => .error .missingField
    | some p => .ok p

/-- The two-pass body of StreamingReadAuthenticatedDataPackage applied to
the decompressed package bytes (both passes re-read the same file, so both
see the same plaintext). -/
def streamingReadPlain (prims : Prims) (plain pk : List Nat) :
    Except PkgErr (List Nat) :=
  match pass0Run prims plain pk with
  | .error e => .error e
  | .ok _ => pass1Run prims plain

/-- StreamingReadAuthenticatedDataPackage: open the package file (its bytes
are the file argument), decompress, and run the two passes. The success
value is the captured payload reader, represented by the position of the
decompressed stream at the first byte of the data value; reading that
reader to end-of-input is drainValue. -/
def StreamingReadAuthenticatedDataPackage (prims : Prims)
    (file pk : List Nat) : Except PkgErr (List Nat) :=
  match prims.decompress file with
  | none => .error .decompressError
  | some plain => streamingReadPlain prims plain pk

/-- The full verdict of the streaming path: the error, or the payload bytes
obtained by reading the returned reader to end-of-input. -/
def packageVerdict (prims : Prims) (file pk : List Nat) :
    Except PkgErr (List Nat) :=
  match StreamingReadAuthenticatedDataPackage prims file pk with
  | .error e => .error e
  | .ok p => drainValue p

/-- Verdict over already-decompressed envelope bytes. -/
def packageVerdictPlain (prims : Prims) (plain pk : List Nat) :
    Except PkgErr (List Nat) :=
  match streamingReadPlain prims plain pk with
  | .error e => .error e
  | .ok p => drainValue p

/-- JSON whitespace skipping as in encoding/json: space, tab, LF, CR (the
same four bytes as isWhitespace). -/
def skipWS : List Nat → List Nat
  | [] => []
  | b :: l => if isWhitespace b then skipWS l else b :: l

/-- One JSON escape sequence as processed by encoding/json: the byte after
the backslash maps to the decoded byte. Unicode escapes are not modelled;
none of the inputs considered here contain them. -/
def jsonUnescape (e : Nat) : Option Nat :=
  if e = 34 then some 34
  else if e = 92 then some 92
  else if e = 47 then some 47
  else if e = 110 then some 10
  else if e = 116 then some 9
  else if e = 114 then some 13
  else if e = 98 then some 8
  else if e = 102 then some 12
  else none

/-- Parsing of a JSON string body by encoding/json, entered just after the
opening quote: bytes up to the closing quote, with backslash escapes
decoded. Returns the decoded bytes and the input after the closing
quote. -/
def parseJString : List Nat → Except PkgErr (List Nat × List Nat)
  | [] => .error .jsonError
  | b :: rest =>
    if b = 34 then .ok ([], rest)
    else if b = 92 then
      match rest with
      | [] => .error .jsonError
      | e :: rest1 =>
        match jsonUnescape e with
        | none => .error .jsonError
        | some c =>
          match parseJString rest1 with
          | .ok (v, r) => .ok (c :: v, r)
          | .error err => .error err
    else
      match parseJString rest with
      | .ok (v, r) => .ok (b :: v, r)
      | .error err => .error err

/-- Field assignment of encoding/json.Unmarshal into an
AuthenticatedDataPackage: the struct tags map data to Data and the two
base64 string fields to the []byte fields through StdEncoding; a member
whose name matches no field is ignored; a repeated member overwrites, so
the last occurrence wins. -/
def unmarshalSetField (prims : Prims) (acc : AuthenticatedDataPackage)
    (key val : List Nat) : Except PkgErr AuthenticatedDataPackage :=
  if key = dataKey then .ok { acc with Data := val }
  else if key = signingPublicKeyDigestKey then
    match prims.base64Decode val with
    | none => .error .jsonError
    | some d => .ok { acc with SigningPublicKeyDigest := d }
  else if key = signatureKey then
    match prims.base64Decode val with
    | none => .error .jsonError
    | some d => .ok { acc with Signature := d }
  else .ok acc

/-- The member loop of encoding/json.Unmarshal for a flat object whose
values are strings (the only shape the envelope and the inputs considered
here use; any other value shape is a decode error in this model). Entered
just after the opening brace or a comma; fuel bounds the number of members
and every caller supplies fuel exceeding the remaining byte count, which
exceeds the member count. Returns the accumulated struct and the input
after the closing brace. -/
def unmarshalMembers (prims : Prims) :
    Nat → AuthenticatedDataPackage → List Nat →
    Except PkgErr (AuthenticatedDataPackage × List Nat)
  | 0, _, _ => .error .outOfFuel
  | f + 1, acc, l =>
    match skipWS l with
    | [] => .error .jsonError
    | b :: rest =>
      if b = 34 then
        match parseJString rest with
        | .error e => .error e
        | .ok (key, r1) =>
          match skipWS r1 with
          | 58 :: r2 =>
            match skipWS r2 with
            | 34 :: r3 =>
              match parseJString r3 with
              | .error e => .error e
              | .ok (val, r4) =>
                match unmarshalSetField prims acc key val with
                | .error e => .error e
                | .ok acc1 =>
                  match skipWS r4 with
                  | 44 :: r5 => unmarshalMembers prims f acc1 r5
                  | 125 :: r5 => .ok (acc1, r5)
                  | _ => .error .jsonError
            | _ => .error .jsonError
          | _ => .error .jsonError
      else .error .jsonError

/-- encoding/json.Unmarshal into a *AuthenticatedDataPackage target, the
shape used by ReadAuthenticatedDataPackage: the JSON literal null succeeds
and sets the pointer to nil (the none result); an object is decoded member
by member with unknown members ignored and later duplicates overwriting;
anything else, or trailing bytes after the document, is a decode error. -/
def jsonUnmarshalPackage (prims : Prims) (l : List Nat) :
    Except PkgErr (Option AuthenticatedDataPackage) :=
  match skipWS l with
  | 110 :: 117 :: 108 :: 108 :: rest =>
    if skipWS rest = [] then .ok none else .error .jsonError
  | 123 :: rest =>
    match skipWS rest with
    | 125 :: r2 =>
      if skipWS r2 = [] then .ok (some default) else .error .jsonError
    | _ =>
      match unmarshalMembers prims (l.length + 1) default rest with
      | .error e => .error e
      | .ok (acc, r) =>
        if skipWS r = [] then .ok (some acc) else .error .jsonError
  | _ => .error .jsonError

/-- ReadAuthenticatedDataPackage: decompress, JSON-decode into a package
pointer, base64-decode and parse the public key, require RSA, compare the
stored digest against SHA-256 of the base64 public-key characters, verify
the signature over SHA-256 of the data. When the JSON document was null the
package pointer is nil and the digest comparison dereferences it: Go panics
there, modelled by the nilPanic error (the checks before that line still
run in source order). -/
def ReadAuthenticatedDataPackage (prims : Prims)
    (compressedPackage pk : List Nat) : Except PkgErr (List Nat) :=
  match prims.decompress compressedPackage with
  | none => .error .decompressError
  | some packageJSON =>
    match jsonUnmarshalPackage prims packageJSON with
    | .error e => .error e
    | .ok pkgOpt =>
      match prims.base64Decode pk with
      | none => .error .invalidKeyBase64
      | some der =>
        if prims.parsePKIXPublicKey der = false then .error .invalidKeyParse
        else if prims.isRSAPublicKey der = false then .error .invalidKeyType
        else
          match pkgOpt with
          | none => .error .nilPanic
          | some p =>
            if p.SigningPublicKeyDigest ≠ prims.sha256 pk then .error .keyMismatch
            else if prims.rsaVerifyPKCS1v15 der (prims.sha256 p.Data) p.Signature = false then
              .error .signatureInvalid
            else .ok p.Data

/-- The envelope constructed by WriteAuthenticatedDataPackage before
marshalling: the private key is base64-decoded and parsed, the signature is
computed over SHA-256 of the data, and signingPublicKeyDigest is SHA-256 of
the base64 characters of the public-key string. -/
def writePackageEnvelope (prims : Prims) (data pk sk : List Nat) :
    Except PkgErr AuthenticatedDataPackage :=
  match prims.base64Decode sk with
  | none => .error .invalidKeyBase64
  | some der =>
    if prims.parsePKCS1PrivateKey der = false then .error .invalidKeyParse
    else
      match prims.rsaSignPKCS1v15 der (prims.sha256 data) with
      | none => .error .signError
      | some sig => .ok ⟨data, prims.sha256 pk, sig⟩

/-- WriteAuthenticatedDataPackage: build the envelope, JSON-marshal it and
zlib-compress the result. -/
def WriteAuthenticatedDataPackage (prims : Prims) (data pk sk : List Nat) :
    Except PkgErr (List Nat) :=
  match writePackageEnvelope prims data pk sk with
  | .error e => .error e
  | .ok env => .ok (prims.compress (prims.marshalPackage env))

/-! Concrete instantiation of the external primitives, used by the closed
witness and counterexample theorems. The stand-ins satisfy the contracts
the code relies on: the binary-to-text codec is hexadecimal (injective,
output free of quotes, backslashes and whitespace), hashing and compression
are the identity, and a signature is valid exactly when it equals the
digest it signs. -/

/-- Hex digit for a value below 16 (0-9, a-f as ASCII). -/
def hexDigit (n : Nat) : Nat := if n < 10 then 48 + n else 87 + n

/-- Value of an ASCII hex digit. -/
def hexDigitVal (c : Nat) : Option Nat :=
  if 48 ≤ c ∧ c ≤ 57 then some (c - 48)
  else if 97 ≤ c ∧ c ≤ 102 then some (c - 87)
  else none

/-- Hex encoding of a byte list, two ASCII digits per byte. -/
def hexEncode : List Nat → List Nat
  | [] => []
  | b :: l => hexDigit (b / 16) :: hexDigit (b % 16) :: hexEncode l

/-- Hex decoding: inverse of hexEncode, failing on odd length or
non-digits. -/
def hexDecode : List Nat → Option (List Nat)
  | [] => some []
  | [_] => none
  | c1 :: c2 :: l =>
    match hexDigitVal c1, hexDigitVal c2, hexDecode l with
    | some h, some lo, some r => some ((h * 16 + lo) :: r)
    | _, _, _ => none

/-- A deterministic stand-in for encoding/json.Marshal of the envelope:
struct-order members, []byte fields rendered through the stand-in
binary-to-text codec, no escaping (usable when the data holds no quote or
backslash). 123 and 125 are the braces, 34 the quote, 58 the colon, 44 the
comma. -/
def testMarshal (e : AuthenticatedDataPackage) : List Nat :=
  123 :: 34 :: dataKey ++ 34 :: 58 :: 34 :: e.Data ++
  34 :: 44 :: 34 :: signingPublicKeyDigestKey ++
  34 :: 58 :: 34 :: hexEncode e.SigningPublicKeyDigest ++
  34 :: 44 :: 34 :: signatureKey ++
  34 :: 58 :: 34 :: hexEncode e.Signature ++ [34, 125]

/-- The concrete primitive instance for closed theorems. -/
def testPrims : Prims where
  sha256 := fun l => l
  rsaSignPKCS1v15 := fun _ d => some d
  rsaVerifyPKCS1v15 := fun _ d s => s = d
  parsePKIXPublicKey := fun _ => true
  isRSAPublicKey := fun _ => true
  parsePKCS1PrivateKey := fun _ => true
  base64Decode := hexDecode
  compress := fun l => l
  decompress := fun l => some l
  marshalPackage := testMarshal

/-! Lemmas about the value-stream reader. -/

/-- Reading a buffer large enough to reach the first quote delivers exactly
the bytes before the quote, consumes the quote, and ends with io.EOF and
the eof flag set. -/
theorem vsReadLoop_quote (pre post : List Nat)
    (hclean : ∀ b ∈ pre, b ≠ 34 ∧ b ≠ 92) :
    ∀ k, pre.length < k →
      vsReadLoop k ⟨false, pre ++ 34 :: post⟩ = (pre, ⟨true, post⟩, some .eofMark) := by
  induction pre with
  | nil =>
    intro k hk
    match k, hk with
    | k + 1, _ => simp [vsReadLoop]
  | cons p pre ih =>
    intro k hk
    match k, hk with
    | k + 1, hk =>
      have hp := hclean p (by simp)
      have ih1 := ih (fun b hb => hclean b (by simp [hb])) k (by
        simp at hk; omega)
      simp [vsReadLoop, hp.1, hp.2, ih1]

/-- Reading up to a backslash delivers the preceding bytes, consumes the
backslash, and ends with the escape error, leaving the eof flag clear. -/
theorem vsReadLoop_backslash (pre post : List Nat)
    (hclean : ∀ b ∈ pre, b ≠ 34 ∧ b ≠ 92) :
    ∀ k, pre.length < k →
      vsReadLoop k ⟨false, pre ++ 92 :: post⟩ = (pre, ⟨false, post⟩, some .escapeErr) := by
  induction pre with
  | nil =>
    intro k hk
    match k, hk with
    | k + 1, _ => simp [vsReadLoop]
  | cons p pre ih =>
    intro k hk
    match k, hk with
    | k + 1, hk =>
      have hp := hclean p (by simp)
      have ih1 := ih (fun b hb => hclean b (by simp [hb])) k (by
        simp at hk; omega)
      simp [vsReadLoop, hp.1, hp.2, ih1]

/-- A read whose buffer ends before any terminator fills the buffer
byte-for-byte in order and returns no error. -/
theorem vsReadLoop_fill (pre post : List Nat)
    (hclean : ∀ b ∈ pre, b ≠ 34 ∧ b ≠ 92) :
    ∀ k, k ≤ pre.length →
      vsReadLoop k ⟨false, pre ++ post⟩ =
        (pre.take k, ⟨false, pre.drop k ++ post⟩, none) := by
  induction pre with
  | nil =>
    intro k hk
    simp at hk
    simp [hk, vsReadLoop]
  | cons p pre ih =>
    intro k hk
    match k with
    | 0 => simp [vsReadLoop]
    | k + 1 =>
      have hp := hclean p (by simp)
      have ih1 := ih (fun b hb => hclean b (by simp [hb])) k (by
        simp at hk; omega)
      simp [vsReadLoop, hp.1, hp.2, ih1]

/-- C6: the byte-level contract of limitedJSONValueStreamer.Read. For a
source whose next bytes up to the first quote contain no quote and no
backslash: (1) a read reaching the quote returns exactly the preceding
bytes in order, consumes the quote without returning it, and reports
end-of-input; (2) once the eof flag is set every later read reports
end-of-input immediately; (3) a read reaching a backslash returns the
preceding bytes and reports the escape-unsupported error instead of the
backslash; (4) a read whose buffer ends earlier returns exactly the next
buffer-many bytes verbatim with no error. -/
theorem limitedJSONValueStreamer_read_spec (pre post : List Nat) (k : Nat)
    (hclean : ∀ b ∈ pre, b ≠ 34 ∧ b ≠ 92) :
    (pre.length < k →
      vsRead ⟨false, pre ++ 34 :: post⟩ k = (pre, ⟨true, post⟩, some .eofMark)) ∧
    (∀ vs : limitedJSONValueStreamer, vs.eof = true →
      vsRead vs k = ([], vs, some .eofMark)) ∧
    (pre.length < k →
      vsRead ⟨false, pre ++ 92 :: post⟩ k = (pre, ⟨false, post⟩, some .escapeErr)) ∧
    (k ≤ pre.length →
      vsRead ⟨false, pre ++ post⟩ k = (pre.take k, ⟨false, pre.drop k ++ post⟩, none)) := by
  refine ⟨fun hk => ?_, fun vs hvs => ?_, fun hk => ?_, fun hk => ?_⟩
  · simp [vsRead, vsReadLoop_quote pre post hclean k hk]
  · simp [vsRead, hvs]
  · simp [vsRead, vsReadLoop_backslash pre post hclean k hk]
  · simp [vsRead, vsReadLoop_fill pre post hclean k hk]

/-- Witness for C6 at concrete inputs: draining a value, a repeated read
after end-of-input, an escape failure, and a partial buffered read. -/
theorem limitedJSONValueStreamer_read_spec_witness :
    vsRead ⟨false, [104, 105, 34, 7, 8]⟩ 9 = ([104, 105], ⟨true, [7, 8]⟩, some .eofMark) ∧
    vsRead ⟨true, [5, 6]⟩ 3 = ([], ⟨true, [5, 6]⟩, some .eofMark) ∧
    vsRead ⟨false, [104, 105, 92, 7]⟩ 9 = ([104, 105], ⟨false, [7]⟩, some .escapeErr) ∧
    vsRead ⟨false, [104, 105, 106, 34]⟩ 2 = ([104, 105], ⟨false, [106, 34]⟩, none) := by
  refine ⟨?_, ?_, ?_, ?_⟩
  · exact (limitedJSONValueStreamer_read_spec [104, 105] [7, 8] 9 (by decide)).1 (by decide)
  · exact (limitedJSONValueStreamer_read_spec [] [] 3 (by decide)).2.1 ⟨true, [5, 6]⟩ rfl
  · exact (limitedJSONValueStreamer_read_spec [104, 105] [7] 9 (by decide)).2.2.1 (by decide)
  · exact (limitedJSONValueStreamer_read_spec [104, 105, 106] [34] 2 (by decide)).2.2.2 (by decide)

/-! Inversion of the pass-0 checks. -/

/-- If pass 0 reports success then the streamer completed, both collected
fields were present, the public key decoded and parsed as RSA, the
collected digest equals SHA-256 of the base64 public-key characters, and
the RSA signature verified over SHA-256 of the streamed data bytes. -/
theorem pass0Run_ok_inv (prims : Prims) (plain pk : List Nat)
    (h : pass0Run prims plain pk = .ok ()) :
    ∃ st dg sg der,
      streamJSON (pass0Handler prims) plain initialPass0 = .ok st ∧
      st.jsonSigningPublicKey = some dg ∧
      st.jsonSignature = some sg ∧
      prims.base64Decode pk = some der ∧
      prims.parsePKIXPublicKey der = true ∧
      prims.isRSAPublicKey der = true ∧
      dg = prims.sha256 pk ∧
      prims.rsaVerifyPKCS1v15 der (prims.sha256 st.hashInput) sg = true := by
  unfold pass0Run at h
  split at h
  · simp at h
  next st heq =>
    split at h
    next dg sg hdg hsg =>
      split at h
      · simp at h
      next der hder =>
        split at h
        · simp at h
        split at h
        · simp at h
        split at h
        · simp at h
        split at h
        · simp at h
        next hparse hrsa hdig hver =>
          refine ⟨st, dg, sg, der, heq, hdg, hsg, hder, ?_, ?_, ?_, ?_⟩
          · simpa using hparse
          · simpa using hrsa
          · simpa using hdig
          · simpa using hver
    next hne => simp at h

/-- C1: the streaming path hands a payload reader to the caller only after
pass 0 has fully completed: a non-error result implies the pass-0 streamer
ran to completion, both digest and signature were collected, the public key
decoded and parsed as RSA, the collected digest equals SHA-256 of the
base64 public-key characters, and the PKCS#1 v1.5 signature verified over
SHA-256 of the streamed data bytes; conversely any pass-0 failure is
returned to the caller as that error, never as a reader. -/
theorem streamingRead_verify_before_expose (prims : Prims) (file pk : List Nat) :
    (∀ p, StreamingReadAuthenticatedDataPackage prims file pk = .ok p →
      ∃ plain st dg sg der,
        prims.decompress file = some plain ∧
        pass0Run prims plain pk = .ok () ∧
        streamJSON (pass0Handler prims) plain initialPass0 = .ok st ∧
        st.jsonSigningPublicKey = some dg ∧
        st.jsonSignature = some sg ∧
        prims.base64Decode pk = some der ∧
        prims.parsePKIXPublicKey der = true ∧
        prims.isRSAPublicKey der = true ∧
        dg = prims.sha256 pk ∧
        prims.rsaVerifyPKCS1v15 der (prims.sha256 st.hashInput) sg = true) ∧
    (∀ plain e, prims.decompress file = some plain →
      pass0Run prims plain pk = .error e →
      StreamingReadAuthenticatedDataPackage prims file pk = .error e) := by
  constructor
  · intro p h
    unfold StreamingReadAuthenticatedDataPackage at h
    split at h
    · simp at h
    next plain hplain =>
      unfold streamingReadPlain at h
      split at h
      · simp at h
      next u h0 =>
        obtain ⟨st, dg, sg, der, hrest⟩ := pass0Run_ok_inv prims plain pk (by
          cases u; exact h0)
        exact ⟨plain, st, dg, sg, der, hplain, (by cases u; exact h0), hrest.1,
          hrest.2.1, hrest.2.2.1, hrest.2.2.2.1, hrest.2.2.2.2.1,
          hrest.2.2.2.2.2.1, hrest.2.2.2.2.2.2.1, hrest.2.2.2.2.2.2.2⟩
  · intro plain e hplain h0
    unfold StreamingReadAuthenticatedDataPackage streamingReadPlain
    rw [hplain]
    simp [h0]

/-- Witness for C1: a concrete package accepted end-to-end, with the pass-0
facts extracted by the theorem. -/
theorem streamingRead_verify_before_expose_witness :
    ∃ plain st dg sg der,
      testPrims.decompress
        (testMarshal ⟨[104, 105], [52, 98], [104, 105]⟩) = some plain ∧
      pass0Run testPrims plain [52, 98] = .ok () ∧
      streamJSON (pass0Handler testPrims) plain initialPass0 = .ok st ∧
      st.jsonSigningPublicKey = some dg ∧
      st.jsonSignature = some sg ∧
      testPrims.base64Decode [52, 98] = some der ∧
      testPrims.parsePKIXPublicKey der = true ∧
      testPrims.isRSAPublicKey der = true ∧
      dg = testPrims.sha256 [52, 98] ∧
      testPrims.rsaVerifyPKCS1v15 der (testPrims.sha256 st.hashInput) sg = true :=
  (streamingRead_verify_before_expose testPrims
      (testMarshal ⟨[104, 105], [52, 98], [104, 105]⟩) [52, 98]).1
    ([104, 105, 34, 44, 34] ++ signingPublicKeyDigestKey ++
      [34, 58, 34, 51, 52, 54, 50, 34, 44, 34] ++ signatureKey ++
      [34, 58, 34, 54, 56, 54, 57, 34, 125])
    (by rfl)

/-- C4: the writer stores in signingPublicKeyDigest the SHA-256 of the
ASCII base64 characters of the public-key string (the pk argument is those
characters; the decoded DER bytes are prims.base64Decode pk and are not
hashed), and both the in-memory reader and the streaming pass-0 checks
compare the stored digest against SHA-256 of the same base64 string,
failing with the key-mismatch error when they differ. -/
theorem signingPublicKeyDigest_of_base64_chars (prims : Prims) :
    (∀ data pk sk env, writePackageEnvelope prims data pk sk = .ok env →
      env.SigningPublicKeyDigest = prims.sha256 pk) ∧
    (∀ c pk plain pkg der,
      prims.decompress c = some plain →
      jsonUnmarshalPackage prims plain = .ok (some pkg) →
      prims.base64Decode pk = some der →
      prims.parsePKIXPublicKey der = true →
      prims.isRSAPublicKey der = true →
      pkg.SigningPublicKeyDigest ≠ prims.sha256 pk →
      ReadAuthenticatedDataPackage prims c pk = .error .keyMismatch) ∧
    (∀ plain pk st dg sg der,
      streamJSON (pass0Handler prims) plain initialPass0 = .ok st →
      st.jsonSigningPublicKey = some dg →
      st.jsonSignature = some sg →
      prims.base64Decode pk = some der →
      prims.parsePKIXPublicKey der = true →
      prims.isRSAPublicKey der = true →
      dg ≠ prims.sha256 pk →
      pass0Run prims plain pk = .error .keyMismatch) := by
  refine ⟨?_, ?_, ?_⟩
  · intro data pk sk env h
    unfold writePackageEnvelope at h
    split at h
    · simp at h
    next der hder =>
      split at h
      · simp at h
      split at h
      · simp at h
      next sig hsig =>
        simp only [Except.ok.injEq] at h
        rw [← h]
  · intro c pk plain pkg der hplain hun hder hparse hrsa hne
    unfold ReadAuthenticatedDataPackage
    rw [hplain]
    simp [hun, hder, hparse, hrsa, hne]
  · intro plain pk st dg sg der hst hdg hsg hder hparse hrsa hne
    unfold pass0Run
    rw [hst]
    simp [hdg, hsg, hder, hparse, hrsa, hne]

/-- Witness for C4 at concrete inputs: the written envelope's digest field,
a key-mismatch failure of the in-memory reader, and a key-mismatch failure
of streaming pass 0 (package digest field [9] against a key hashing to
[52, 98]). -/
theorem signingPublicKeyDigest_of_base64_chars_witness :
    (⟨[104, 105], testPrims.sha256 [52, 98], [104, 105]⟩ :
        AuthenticatedDataPackage).SigningPublicKeyDigest =
      testPrims.sha256 [52, 98] ∧
    ReadAuthenticatedDataPackage testPrims
      (testMarshal ⟨[104, 105], [9], [104, 105]⟩) [52, 98] = .error .keyMismatch ∧
    pass0Run testPrims
      (testMarshal ⟨[104, 105], [9], [104, 105]⟩) [52, 98] = .error .keyMismatch := by
  refine ⟨?_, ?_, ?_⟩
  · exact (signingPublicKeyDigest_of_base64_chars testPrims).1
      [104, 105] [52, 98] [48, 49] ⟨[104, 105], [52, 98], [104, 105]⟩ (by rfl)
  · exact (signingPublicKeyDigest_of_base64_chars testPrims).2.1
      (testMarshal ⟨[104, 105], [9], [104, 105]⟩) [52, 98]
      (testMarshal ⟨[104, 105], [9], [104, 105]⟩)
      ⟨[104, 105], [9], [104, 105]⟩ [75] (by rfl) (by rfl) (by rfl) (by rfl)
      (by rfl) (by decide)
  · exact (signingPublicKeyDigest_of_base64_chars testPrims).2.2
      (testMarshal ⟨[104, 105], [9], [104, 105]⟩) [52, 98]
      ⟨[104, 105], some [9], some [104, 105]⟩ [9] [104, 105] [75]
      (by rfl) (by rfl) (by rfl) (by rfl) (by rfl) (by rfl) (by decide)

/-- C5, failing side: when the decompressed package is the JSON document
null, json.Unmarshal succeeds leaving the package pointer nil and the
digest comparison dereferences it, so ReadAuthenticatedDataPackage panics
instead of returning an error (the key decode and parse checks that the
source runs before that line still apply). 110, 117, 108, 108 are the
ASCII bytes of null. -/
theorem readPackage_nil_pointer_panic (prims : Prims) (c pk der : List Nat)
    (hplain : prims.decompress c = some [110, 117, 108, 108])
    (hder : prims.base64Decode pk = some der)
    (hparse : prims.parsePKIXPublicKey der = true)
    (hrsa : prims.isRSAPublicKey der = true) :
    ReadAuthenticatedDataPackage prims c pk = .error .nilPanic := by
  unfold ReadAuthenticatedDataPackage
  rw [hplain]
  have hnull : jsonUnmarshalPackage prims [110, 117, 108, 108] = .ok none := by rfl
  simp [hnull, hder, hparse, hrsa]

/-- Witness for C5: the panic reached at the concrete failing input. -/
theorem readPackage_nil_pointer_panic_witness :
    ReadAuthenticatedDataPackage testPrims [110, 117, 108, 108] [52, 98] =
      .error .nilPanic :=
  readPackage_nil_pointer_panic testPrims [110, 117, 108, 108] [52, 98] [75]
    (by rfl) (by rfl) (by rfl) (by rfl)

/-- C2: round-trip. For every payload and every key pair for which the
external primitives satisfy their contracts pointwise - the private key
decodes and parses (h1, h2), signing succeeds (h3), zlib decompression
inverts compression on the marshalled envelope (h4), json.Unmarshal inverts
json.Marshal on the envelope (h5), the public key decodes and parses as RSA
(h6-h8), and a signature produced by the private key verifies under the
public key (h9, the generated-key-pair contract) - writing a package and
reading it back with the same public key succeeds and returns exactly the
original data. -/
theorem write_read_roundtrip (prims : Prims) (D pk sk skDer pkDer sig : List Nat)
    (h1 : prims.base64Decode sk = some skDer)
    (h2 : prims.parsePKCS1PrivateKey skDer = true)
    (h3 : prims.rsaSignPKCS1v15 skDer (prims.sha256 D) = some sig)
    (h4 : prims.decompress
            (prims.compress (prims.marshalPackage ⟨D, prims.sha256 pk, sig⟩)) =
          some (prims.marshalPackage ⟨D, prims.sha256 pk, sig⟩))
    (h5 : jsonUnmarshalPackage prims (prims.marshalPackage ⟨D, prims.sha256 pk, sig⟩) =
          .ok (some ⟨D, prims.sha256 pk, sig⟩))
    (h6 : prims.base64Decode pk = some pkDer)
    (h7 : prims.parsePKIXPublicKey pkDer = true)
    (h8 : prims.isRSAPublicKey pkDer = true)
    (h9 : prims.rsaVerifyPKCS1v15 pkDer (prims.sha256 D) sig = true) :
    ∃ c, WriteAuthenticatedDataPackage prims D pk sk = .ok c ∧
         ReadAuthenticatedDataPackage prims c pk = .ok D := by
  refine ⟨prims.compress (prims.marshalPackage ⟨D, prims.sha256 pk, sig⟩), ?_, ?_⟩
  · unfold WriteAuthenticatedDataPackage writePackageEnvelope
    rw [h1]
    simp [h2, h3]
  · unfold ReadAuthenticatedDataPackage
    rw [h4]
    simp [h5, h6, h7, h8, h9]

/-- Witness for C2: the round trip evaluated at a concrete payload and key
pair under the concrete primitives. -/
theorem write_read_roundtrip_witness :
    ∃ c, WriteAuthenticatedDataPackage testPrims [104, 105] [52, 98] [48, 49] = .ok c ∧
         ReadAuthenticatedDataPackage testPrims c [52, 98] = .ok [104, 105] :=
  write_read_roundtrip testPrims [104, 105] [52, 98] [48, 49] [1] [75] [104, 105]
    (by rfl) (by rfl) (by rfl) (by rfl) (by rfl) (by rfl) (by rfl) (by rfl) (by rfl)

/-! Whitespace handling of the streamer. -/

/-- A whitespace byte is none of the structural bytes. -/
theorem ws_ne (b : Nat) (hb : isWhitespace b = true) :
    b ≠ 123 ∧ b ≠ 34 ∧ b ≠ 92 ∧ b ≠ 58 ∧ b ≠ 44 ∧ b ≠ 125 := by
  unfold isWhitespace at hb
  simp only [Bool.or_eq_true, beq_iff_eq] at hb
  omega

/-- In every state except the key-scanning state the streamer skips
whitespace without changing the key buffer, the handler state or the parse
state; one fuel unit is spent per skipped byte. -/
theorem streamAux_ws_skip {σ : Type} (h : JHandler σ) (st : JState)
    (hst : st ≠ .seekKeyEnd) (w : List Nat)
    (hw : ∀ b ∈ w, isWhitespace b = true) (f : Nat) (kb l : List Nat) (s : σ) :
    streamAux h (w.length + f) st kb (w ++ l) s = streamAux h f st kb l s := by
  induction w with
  | nil => simp
  | cons b w ih =>
    have hb : isWhitespace b = true := hw b (by simp)
    have hne := ws_ne b hb
    have ih1 := ih (fun c hc => hw c (List.mem_cons_of_mem _ hc))
    have harith : (b :: w).length + f = (w.length + f) + 1 := by
      simp [Nat.add_assoc, Nat.add_comm 1 f]
    rw [harith, List.cons_append]
    cases st with
    | seekKeyEnd => exact absurd rfl hst
    | seekObjectStart => simp [streamAux, hne.1, hb, ih1]
    | seekKeyStart => simp [streamAux, hne.2.1, hb, ih1]
    | seekColon => simp [streamAux, hne.2.2.2.1, hb, ih1]
    | seekValueStart => simp [streamAux, hne.2.1, hb, ih1]
    | seekNextPair => simp [streamAux, hne.2.2.2.2.1, hne.2.2.2.2.2, hb, ih1]
    | objectEnd => simp [streamAux, hne.2.2.2.2.2, hb, ih1]

/-- One step: the opening brace moves to key seeking. -/
theorem streamAux_open {σ : Type} (h : JHandler σ) (f : Nat) (kb l : List Nat) (s : σ) :
    streamAux h (f + 1) .seekObjectStart kb (123 :: l) s =
      streamAux h f .seekKeyStart kb l s := by
  simp [streamAux]

/-- One step: a quote while seeking a key start enters the key scan with a
reset key buffer. -/
theorem streamAux_keyStart_quote {σ : Type} (h : JHandler σ) (f : Nat)
    (kb l : List Nat) (s : σ) :
    streamAux h (f + 1) .seekKeyStart kb (34 :: l) s =
      streamAux h f .seekKeyEnd [] l s := by
  simp [streamAux]

/-- One step: a closing brace while seeking a key start is rejected. -/
theorem streamAux_keyStart_brace {σ : Type} (h : JHandler σ) (f : Nat)
    (kb l : List Nat) (s : σ) :
    streamAux h (f + 1) .seekKeyStart kb (125 :: l) s =
      .error (.unexpectedChar (JState.seekKeyStart).tag 125) := by
  simp [streamAux, isWhitespace]

/-- One step: the colon moves to value seeking. -/
theorem streamAux_colon {σ : Type} (h : JHandler σ) (f : Nat)
    (kb l : List Nat) (s : σ) :
    streamAux h (f + 1) .seekColon kb (58 :: l) s =
      streamAux h f .seekValueStart kb l s := by
  simp [streamAux]

/-- One step: the value's opening quote invokes the handler with the key
buffer and the remaining stream; on continue the parse resumes at the
stream position the handler returned, otherwise streaming ends with the
handler's state. -/
theorem streamAux_valueStart_quote {σ : Type} (h : JHandler σ) (f : Nat)
    (kb l : List Nat) (s : σ) :
    streamAux h (f + 1) .seekValueStart kb (34 :: l) s =
      (match h kb l s with
       | .error e => .error e
       | .ok (cont, rest1, s1) =>
         if cont then streamAux h f .seekNextPair kb rest1 s1 else .ok s1) := by
  simp [streamAux]

/-- One step: a comma after a value returns to key seeking. -/
theorem streamAux_nextPair_comma {σ : Type} (h : JHandler σ) (f : Nat)
    (kb l : List Nat) (s : σ) :
    streamAux h (f + 1) .seekNextPair kb (44 :: l) s =
      streamAux h f .seekKeyStart kb l s := by
  simp [streamAux, isWhitespace]

/-- One step: a closing brace after a value enters the object-end state. -/
theorem streamAux_nextPair_brace {σ : Type} (h : JHandler σ) (f : Nat)
    (kb l : List Nat) (s : σ) :
    streamAux h (f + 1) .seekNextPair kb (125 :: l) s =
      streamAux h f .objectEnd kb l s := by
  simp [streamAux, isWhitespace]

/-- End-of-input in the object-end state is success. -/
theorem streamAux_objEnd_eof {σ : Type} (h : JHandler σ) (f : Nat)
    (kb : List Nat) (s : σ) :
    streamAux h (f + 1) .objectEnd kb [] s = .ok s := by
  simp [streamAux]

/-- Counterexample to C7 as stated: on the two-byte empty object the
streamer does not succeed; the closing brace in the key-seeking state is an
unexpected character (state machine case stateJSONSeekingKeyStart accepts
only a quote or whitespace). The handler is irrelevant; a trivial one is
supplied. -/
theorem emptyObject_not_accepted :
    streamJSON (fun _ l s => .ok (true, l, s)) [123, 125] () =
      .error (.unexpectedChar (JState.seekKeyStart).tag 125) := by rfl

/-- C7 amended: the streamer rejects the empty object. For every handler
and every input of optional whitespace, an opening brace, optional
whitespace, a closing brace and anything after, Stream fails with the
unexpected-character error raised at the closing brace while seeking a key
start: at least one member is required. -/
theorem emptyObject_rejected {σ : Type} (h : JHandler σ) (s : σ)
    (w1 w2 w3 : List Nat)
    (hw1 : ∀ b ∈ w1, isWhitespace b = true)
    (hw2 : ∀ b ∈ w2, isWhitespace b = true) :
    streamJSON h (w1 ++ 123 :: (w2 ++ 125 :: w3)) s =
      .error (.unexpectedChar (JState.seekKeyStart).tag 125) := by
  unfold streamJSON runS
  have hlen : (w1 ++ 123 :: (w2 ++ 125 :: w3)).length + 1 =
      w1.length + (w2.length + w3.length + 3) := by
    simp only [List.length_append, List.length_cons]
    omega
  rw [hlen, streamAux_ws_skip h .seekObjectStart (by simp) w1 hw1]
  have h2 : w2.length + w3.length + 3 = (w2.length + (w3.length + 2)) + 1 := by omega
  rw [h2, streamAux_open, streamAux_ws_skip h .seekKeyStart (by simp) w2 hw2]
  have h3 : w3.length + 2 = (w3.length + 1) + 1 := by omega
  rw [h3, streamAux_keyStart_brace]

/-- Witness for the amended C7 at concrete whitespace and a concrete
handler. -/
theorem emptyObject_rejected_witness :
    streamJSON (fun _ l s => .ok (true, l, s)) ([32] ++ 123 :: ([9] ++ 125 :: [10])) () =
      .error (.unexpectedChar (JState.seekKeyStart).tag 125) :=
  emptyObject_rejected (fun _ l s => .ok (true, l, s)) () [32] [9] [10]
    (by decide) (by decide)

/-! Handler bounds and fuel irrelevance. -/

/-- A handler is bounded when it only ever consumes from the shared stream
(the returned position is no longer than the input position). Every handler
in the source reads through the value streamer, so it is bounded. -/
def HB {σ : Type} (h : JHandler σ) : Prop :=
  ∀ k l s c l1 s1, h k l s = .ok (c, l1, s1) → l1.length ≤ l.length

/-- readStringValue consumes from the stream. -/
theorem readStringValue_length : ∀ (l v r : List Nat),
    readStringValue l = .ok (v, r) → r.length ≤ l.length := by
  intro l
  induction l with
  | nil => intro v r h; simp [readStringValue] at h; simp [h.2]
  | cons b rest ih =>
    intro v r h
    unfold readStringValue at h
    split at h
    · simp at h
      simp [h.2]
    split at h
    · simp at h
    · split at h
      next v1 r1 heq =>
        simp at h
        have := ih v1 r1 heq
        simp [← h.2]
        omega
      · simp at h

/-- jsonReadBase64Value consumes from the stream. -/
theorem jsonReadBase64Value_length (prims : Prims) (l d r : List Nat)
    (h : jsonReadBase64Value prims l = .ok (d, r)) : r.length ≤ l.length := by
  unfold jsonReadBase64Value at h
  split at h
  · simp at h
  next v r1 heq =>
    split at h
    · simp at h
    · simp at h
      rw [← h.2]
      exact readStringValue_length l v r1 heq

/-- The pass-0 handler is bounded. -/
theorem pass0Handler_HB (prims : Prims) : HB (pass0Handler prims) := by
  intro k l s c l1 s1 h
  unfold pass0Handler at h
  split at h
  · split at h
    · simp at h
    next v r heq =>
      simp at h
      rw [← h.2.1]
      exact readStringValue_length l v r heq
  split at h
  · split at h
    · simp at h
    next d r heq =>
      simp at h
      rw [← h.2.1]
      exact jsonReadBase64Value_length prims l d r heq
  split at h
  · split at h
    · simp at h
    next d r heq =>
      simp at h
      rw [← h.2.1]
      exact jsonReadBase64Value_length prims l d r heq
  · simp at h

/-- The pass-1 handler is bounded. -/
theorem pass1Handler_HB (prims : Prims) : HB (pass1Handler prims) := by
  intro k l s c l1 s1 h
  unfold pass1Handler at h
  split at h
  · simp at h
    simp [h.2.1]
  split at h
  · split at h
    · simp at h
    next d r heq =>
      simp at h
      rw [← h.2.1]
      exact jsonReadBase64Value_length prims l d r heq
  split at h
  · split at h
    · simp at h
    next d r heq =>
      simp at h
      rw [← h.2.1]
      exact jsonReadBase64Value_length prims l d r heq
  · simp at h

/-- For a bounded handler the streamer result does not depend on the fuel,
provided the fuel exceeds the stream length. -/
theorem streamAux_fuelMono {σ : Type} (h : JHandler σ) (hb : HB h) :
    ∀ (n : Nat) (l : List Nat) (st : JState) (kb : List Nat) (s : σ) (f fg : Nat),
      l.length ≤ n → l.length + 1 ≤ f → l.length + 1 ≤ fg →
      streamAux h f st kb l s = streamAux h fg st kb l s := by
  intro n
  induction n with
  | zero =>
    intro l st kb s f fg hn hf hg
    match l, hn with
    | [], _ =>
      match f, hf, fg, hg with
      | _ + 1, _, _ + 1, _ => rfl
  | succ n ih =>
    intro l st kb s f fg hn hf hg
    match l with
    | [] =>
      match f, hf, fg, hg with
      | _ + 1, _, _ + 1, _ => rfl
    | b :: rest =>
      match f, hf, fg, hg with
      | f + 1, hf, fg + 1, hg =>
        have hrest : rest.length ≤ n := by
          simp only [List.length_cons] at hn; omega
        have hf1 : rest.length + 1 ≤ f := by
          simp only [List.length_cons] at hf; omega
        have hg1 : rest.length + 1 ≤ fg := by
          simp only [List.length_cons] at hg; omega
        cases st with
        | seekObjectStart =>
          simp only [streamAux]
          split
          · exact ih rest _ kb s f fg hrest hf1 hg1
          split
          · exact ih rest _ kb s f fg hrest hf1 hg1
          · rfl
        | seekKeyStart =>
          simp only [streamAux]
          split
          · exact ih rest _ [] s f fg hrest hf1 hg1
          split
          · exact ih rest _ kb s f fg hrest hf1 hg1
          · rfl
        | seekKeyEnd =>
          simp only [streamAux]
          split
          · rfl
          split
          · exact ih rest _ kb s f fg hrest hf1 hg1
          · exact ih rest _ (kb ++ [b]) s f fg hrest hf1 hg1
        | seekColon =>
          simp only [streamAux]
          split
          · exact ih rest _ kb s f fg hrest hf1 hg1
          split
          · exact ih rest _ kb s f fg hrest hf1 hg1
          · rfl
        | seekValueStart =>
          simp only [streamAux]
          split
          · cases hh : h kb rest s with
            | error e => rfl
            | ok t =>
              obtain ⟨cont, rest1, s1⟩ := t
              have hlen := hb kb rest s cont rest1 s1 hh
              cases cont with
              | true =>
                simp only [if_true]
                exact ih rest1 _ kb s1 f fg (by omega) (by omega) (by omega)
              | false => simp
          split
          · exact ih rest _ kb s f fg hrest hf1 hg1
          · rfl
        | seekNextPair =>
          simp only [streamAux]
          split
          · exact ih rest _ kb s f fg hrest hf1 hg1
          split
          · exact ih rest _ kb s f fg hrest hf1 hg1
          split
          · exact ih rest _ kb s f fg hrest hf1 hg1
          · rfl
        | objectEnd =>
          simp only [streamAux]
          split
          · exact ih rest _ kb s f fg hrest hf1 hg1
          · rfl

/-! Canonical-fuel stepping. -/

/-- Normalize any sufficient fuel to the canonical one. -/
theorem streamAux_runS {σ : Type} (h : JHandler σ) (hb : HB h) (f : Nat)
    (st : JState) (kb l : List Nat) (s : σ) (hf : l.length + 1 ≤ f) :
    streamAux h f st kb l s = runS h st kb l s :=
  streamAux_fuelMono h hb l.length l st kb s f (l.length + 1) (le_refl _) hf (le_refl _)

/-- Skipping whitespace at canonical fuel, outside the key scan. -/
theorem runS_ws {σ : Type} (h : JHandler σ) (st : JState)
    (hst : st ≠ .seekKeyEnd) (w : List Nat)
    (hw : ∀ b ∈ w, isWhitespace b = true) (kb l : List Nat) (s : σ) :
    runS h st kb (w ++ l) s = runS h st kb l s := by
  unfold runS
  rw [show (w ++ l).length + 1 = w.length + (l.length + 1) by simp; omega]
  exact streamAux_ws_skip h st hst w hw (l.length + 1) kb l s

/-- Opening brace at canonical fuel. -/
theorem runS_open {σ : Type} (h : JHandler σ) (kb l : List Nat) (s : σ) :
    runS h .seekObjectStart kb (123 :: l) s = runS h .seekKeyStart kb l s := by
  unfold runS
  rw [show (123 :: l).length + 1 = (l.length + 1) + 1 by simp]
  exact streamAux_open h (l.length + 1) kb l s

/-- Key opening quote at canonical fuel. -/
theorem runS_keyStart_quote {σ : Type} (h : JHandler σ) (kb l : List Nat) (s : σ) :
    runS h .seekKeyStart kb (34 :: l) s = runS h .seekKeyEnd [] l s := by
  unfold runS
  rw [show (34 :: l).length + 1 = (l.length + 1) + 1 by simp]
  exact streamAux_keyStart_quote h (l.length + 1) kb l s

/-- Colon at canonical fuel. -/
theorem runS_colon {σ : Type} (h : JHandler σ) (kb l : List Nat) (s : σ) :
    runS h .seekColon kb (58 :: l) s = runS h .seekValueStart kb l s := by
  unfold runS
  rw [show (58 :: l).length + 1 = (l.length + 1) + 1 by simp]
  exact streamAux_colon h (l.length + 1) kb l s

/-- Comma at canonical fuel. -/
theorem runS_nextPair_comma {σ : Type} (h : JHandler σ) (kb l : List Nat) (s : σ) :
    runS h .seekNextPair kb (44 :: l) s = runS h .seekKeyStart kb l s := by
  unfold runS
  rw [show (44 :: l).length + 1 = (l.length + 1) + 1 by simp]
  exact streamAux_nextPair_comma h (l.length + 1) kb l s

/-- Closing brace at canonical fuel. -/
theorem runS_nextPair_brace {σ : Type} (h : JHandler σ) (kb l : List Nat) (s : σ) :
    runS h .seekNextPair kb (125 :: l) s = runS h .objectEnd kb l s := by
  unfold runS
  rw [show (125 :: l).length + 1 = (l.length + 1) + 1 by simp]
  exact streamAux_nextPair_brace h (l.length + 1) kb l s

/-- Success at end-of-input in the object-end state, canonical fuel. -/
theorem runS_objEnd_nil {σ : Type} (h : JHandler σ) (kb : List Nat) (s : σ) :
    runS h .objectEnd kb [] s = .ok s := rfl

/-- Scanning a clean key (no quote, no backslash) appends it to the key
buffer and stops at the closing quote. -/
theorem runS_keyEnd_clean {σ : Type} (h : JHandler σ) (v : List Nat)
    (hq : 34 ∉ v) (hb : 92 ∉ v) :
    ∀ (kb l : List Nat) (s : σ),
      runS h .seekKeyEnd kb (v ++ 34 :: l) s = runS h .seekColon (kb ++ v) l s := by
  induction v with
  | nil =>
    intro kb l s
    unfold runS
    rw [show (([] : List Nat) ++ 34 :: l).length + 1 = (l.length + 1) + 1 by simp]
    simp [streamAux]
  | cons c v ih =>
    intro kb l s
    have hc34 : c ≠ 34 := fun hc => hq (by simp [hc])
    have hc92 : c ≠ 92 := fun hc => hb (by simp [hc])
    have step : runS h .seekKeyEnd kb ((c :: v) ++ 34 :: l) s =
        runS h .seekKeyEnd (kb ++ [c]) (v ++ 34 :: l) s := by
      unfold runS
      rw [show ((c :: v) ++ 34 :: l).length + 1 = ((v ++ 34 :: l).length + 1) + 1 by simp]
      simp [streamAux, hc34, hc92]
    rw [step, ih (fun hm => hq (by simp [hm])) (fun hm => hb (by simp [hm]))]
    simp

/-- A backslash inside a key fails with the escape error, whatever
follows. -/
theorem runS_keyEnd_backslash {σ : Type} (h : JHandler σ) (v : List Nat)
    (hq : 34 ∉ v) (hb : 92 ∉ v) :
    ∀ (kb l : List Nat) (s : σ),
      runS h .seekKeyEnd kb (v ++ 92 :: l) s = .error .escapeUnsupported := by
  induction v with
  | nil =>
    intro kb l s
    unfold runS
    rw [show (([] : List Nat) ++ 92 :: l).length + 1 = (l.length + 1) + 1 by simp]
    simp [streamAux]
  | cons c v ih =>
    intro kb l s
    have hc34 : c ≠ 34 := fun hc => hq (by simp [hc])
    have hc92 : c ≠ 92 := fun hc => hb (by simp [hc])
    have step : runS h .seekKeyEnd kb ((c :: v) ++ 92 :: l) s =
        runS h .seekKeyEnd (kb ++ [c]) (v ++ 92 :: l) s := by
      unfold runS
      rw [show ((c :: v) ++ 92 :: l).length + 1 = ((v ++ 92 :: l).length + 1) + 1 by simp]
      simp [streamAux, hc34, hc92]
    rw [step, ih (fun hm => hq (by simp [hm])) (fun hm => hb (by simp [hm]))]

/-- Handler invocation at canonical fuel: the value's opening quote hands
the key buffer and the remaining stream to the handler. -/
theorem runS_valueStart_quote {σ : Type} (h : JHandler σ) (hb : HB h)
    (kb l : List Nat) (s : σ) :
    runS h .seekValueStart kb (34 :: l) s =
      (match h kb l s with
       | .error e => .error e
       | .ok (cont, rest1, s1) =>
         if cont then runS h .seekNextPair kb rest1 s1 else .ok s1) := by
  unfold runS
  rw [show (34 :: l).length + 1 = (l.length + 1) + 1 by simp]
  rw [streamAux_valueStart_quote]
  cases hh : h kb l s with
  | error e => rfl
  | ok t =>
    obtain ⟨cont, rest1, s1⟩ := t
    have hlen := hb kb l s cont rest1 s1 hh
    cases cont with
    | true =>
      simp only [if_true]
      exact streamAux_runS h hb (l.length + 1) .seekNextPair kb rest1 s1 (by omega)
    | false => simp

/-- Reading a clean string value consumes it and the closing quote. -/
theorem readStringValue_clean (v : List Nat) (hq : 34 ∉ v) (hb : 92 ∉ v) :
    ∀ l, readStringValue (v ++ 34 :: l) = .ok (v, l) := by
  induction v with
  | nil => intro l; simp [readStringValue]
  | cons c v ih =>
    intro l
    have hc34 : c ≠ 34 := fun hc => hq (by simp [hc])
    have hc92 : c ≠ 92 := fun hc => hb (by simp [hc])
    simp [readStringValue, hc34, hc92,
      ih (fun hm => hq (by simp [hm])) (fun hm => hb (by simp [hm]))]

/-- A backslash in a value fails the read, whatever follows. -/
theorem readStringValue_backslash (v : List Nat) (hq : 34 ∉ v) (hb : 92 ∉ v) :
    ∀ l, readStringValue (v ++ 92 :: l) = .error .escapeUnsupported := by
  induction v with
  | nil => intro l; simp [readStringValue]
  | cons c v ih =>
    intro l
    have hc34 : c ≠ 34 := fun hc => hq (by simp [hc])
    have hc92 : c ≠ 92 := fun hc => hb (by simp [hc])
    simp [readStringValue, hc34, hc92,
      ih (fun hm => hq (by simp [hm])) (fun hm => hb (by simp [hm]))]

/-! Canonically rendered envelopes: a member list in document order,
serialized with no inter-token whitespace. -/

/-- One object member: key bytes and raw value bytes. -/
abbrev Member := List Nat × List Nat

/-- The bytes of one member: quoted key, colon, quoted value. -/
def renderMember (m : Member) : List Nat :=
  [34] ++ m.1 ++ [34, 58, 34] ++ m.2 ++ [34]

/-- Comma-separated members. -/
def renderMembers : List Member → List Nat
  | [] => []
  | [m] => renderMember m
  | m :: m1 :: ms => renderMember m ++ [44] ++ renderMembers (m1 :: ms)

/-- A whole object document. -/
def renderObject (ms : List Member) : List Nat :=
  [123] ++ renderMembers ms ++ [125]

/-- A member the streaming handlers accept without error: key and value
contain neither quote nor backslash, and the key is one of the three
package members, with the two base64 fields decodable. -/
def goodMember (prims : Prims) (m : Member) : Prop :=
  34 ∉ m.1 ∧ 92 ∉ m.1 ∧ 34 ∉ m.2 ∧ 92 ∉ m.2 ∧
  (m.1 = dataKey ∨
    ((m.1 = signingPublicKeyDigestKey ∨ m.1 = signatureKey) ∧
      (prims.base64Decode m.2).isSome))

instance goodMemberDecidable (prims : Prims) (m : Member) :
    Decidable (goodMember prims m) := by
  unfold goodMember
  exact inferInstance

/-- The values of all data members, in document order. -/
def dataValues : List Member → List (List Nat)
  | [] => []
  | m :: ms => if m.1 = dataKey then m.2 :: dataValues ms else dataValues ms

/-- The value of the last member with the given key, if any. -/
def lastValueOf (k : List Nat) : List Member → Option (List Nat)
  | [] => none
  | m :: ms =>
    match lastValueOf k ms with
    | some v => some v
    | none => if m.1 = k then some m.2 else none

/-- The value of the first member with the given key, if any. -/
def firstValueOf (k : List Nat) : List Member → Option (List Nat)
  | [] => none
  | m :: ms => if m.1 = k then some m.2 else firstValueOf k ms

/-- The base64 decoding of the last member with the given key, defaulting
to d0 when the key never occurs. -/
def lastDecoded (prims : Prims) (k : List Nat) (ms : List Member)
    (d0 : Option (List Nat)) : Option (List Nat) :=
  match lastValueOf k ms with
  | none => d0
  | some v => prims.base64Decode v

/-- Peeling one member off lastDecoded: a later occurrence overwrites. -/
theorem lastDecoded_cons (prims : Prims) (k : List Nat) (m : Member)
    (ms : List Member) (d0 : Option (List Nat)) :
    lastDecoded prims k (m :: ms) d0 =
      lastDecoded prims k ms
        (if m.1 = k then prims.base64Decode m.2 else d0) := by
  cases hlast : lastValueOf k ms with
  | some v => simp [lastDecoded, lastValueOf, hlast]
  | none =>
    by_cases hk : m.1 = k <;> simp [lastDecoded, lastValueOf, hlast, hk]

/-- The state update one good member causes in the pass-0 handler. -/
def pass0Update (prims : Prims) (m : Member) (s : Pass0State) : Pass0State :=
  if m.1 = dataKey then { s with hashInput := s.hashInput ++ m.2 }
  else if m.1 = signingPublicKeyDigestKey then
    { s with jsonSigningPublicKey := prims.base64Decode m.2 }
  else { s with jsonSignature := prims.base64Decode m.2 }

/-- Processing one good member from the key-seeking state: the key is
scanned, the handler consumes the value and the closing quote, and the
parse resumes after the member with the updated state. -/
theorem runS_member_pass0 (prims : Prims) (m : Member)
    (hm : goodMember prims m) (kb tail : List Nat) (s : Pass0State) :
    runS (pass0Handler prims) .seekKeyStart kb (renderMember m ++ tail) s =
      runS (pass0Handler prims) .seekNextPair m.1 tail (pass0Update prims m s) := by
  obtain ⟨hk34, hk92, hv34, hv92, hkey⟩ := hm
  have hshape : renderMember m ++ tail =
      34 :: (m.1 ++ 34 :: 58 :: 34 :: (m.2 ++ 34 :: tail)) := by
    simp [renderMember]
  rw [hshape, runS_keyStart_quote,
    runS_keyEnd_clean (pass0Handler prims) m.1 hk34 hk92, List.nil_append,
    runS_colon, runS_valueStart_quote (pass0Handler prims) (pass0Handler_HB prims)]
  rcases hkey with hdata | ⟨hks, hdec⟩
  · rw [show pass0Handler prims m.1 (m.2 ++ 34 :: tail) s =
        .ok (true, tail, { s with hashInput := s.hashInput ++ m.2 }) from by
      unfold pass0Handler
      rw [if_pos hdata, readStringValue_clean m.2 hv34 hv92]]
    simp [pass0Update, hdata]
  · obtain ⟨d, hd⟩ := Option.isSome_iff_exists.mp hdec
    rcases hks with hdig | hsig
    · have hnd : m.1 ≠ dataKey := by rw [hdig]; decide
      rw [show pass0Handler prims m.1 (m.2 ++ 34 :: tail) s =
          .ok (true, tail, { s with jsonSigningPublicKey := some d }) from by
        unfold pass0Handler jsonReadBase64Value
        rw [if_neg hnd, if_pos hdig, readStringValue_clean m.2 hv34 hv92]
        simp [hd]]
      simp +decide [pass0Update, hnd, hdig, hd]
    · have hnd : m.1 ≠ dataKey := by rw [hsig]; decide
      have hndig : m.1 ≠ signingPublicKeyDigestKey := by rw [hsig]; decide
      rw [show pass0Handler prims m.1 (m.2 ++ 34 :: tail) s =
          .ok (true, tail, { s with jsonSignature := some d }) from by
        unfold pass0Handler jsonReadBase64Value
        rw [if_neg hnd, if_neg hndig, if_pos hsig, readStringValue_clean m.2 hv34 hv92]
        simp [hd]]
      simp +decide [pass0Update, hnd, hndig, hsig, hd]

/-- Folding the pass-0 state across one member agrees with the spec-side
accumulators: data values concatenate in document order, and the last
occurrence of each base64 field wins. -/
theorem pass0State_fold_cons (prims : Prims) (m : Member) (rest : List Member)
    (s : Pass0State) (hm : goodMember prims m) :
    (⟨(pass0Update prims m s).hashInput ++ (dataValues rest).flatten,
      lastDecoded prims signingPublicKeyDigestKey rest
        (pass0Update prims m s).jsonSigningPublicKey,
      lastDecoded prims signatureKey rest
        (pass0Update prims m s).jsonSignature⟩ : Pass0State) =
    ⟨s.hashInput ++ (dataValues (m :: rest)).flatten,
     lastDecoded prims signingPublicKeyDigestKey (m :: rest) s.jsonSigningPublicKey,
     lastDecoded prims signatureKey (m :: rest) s.jsonSignature⟩ := by
  rcases hm.2.2.2.2 with hdata | ⟨hks, _⟩
  · have h1 : m.1 ≠ signingPublicKeyDigestKey := by rw [hdata]; decide
    have h2 : m.1 ≠ signatureKey := by rw [hdata]; decide
    rw [lastDecoded_cons, lastDecoded_cons, if_neg h1, if_neg h2]
    simp +decide [pass0Update, dataValues, hdata]
  · rcases hks with hdig | hsig
    · have h1 : m.1 ≠ dataKey := by rw [hdig]; decide
      have h2 : m.1 ≠ signatureKey := by rw [hdig]; decide
      rw [lastDecoded_cons, lastDecoded_cons, if_neg h2, if_pos hdig]
      simp +decide [pass0Update, dataValues, h1, hdig]
    · have h1 : m.1 ≠ dataKey := by rw [hsig]; decide
      have h2 : m.1 ≠ signingPublicKeyDigestKey := by rw [hsig]; decide
      rw [lastDecoded_cons, lastDecoded_cons, if_neg h2, if_pos hsig]
      simp +decide [pass0Update, dataValues, h1, hsig]

/-- Pass-0 streaming of a rendered member list: the hash input is the
concatenation of all data values in document order, and the collected
digest and signature are the decodings of the last occurrences. -/
theorem runS_members_pass0 (prims : Prims) :
    ∀ (ms : List Member), ms ≠ [] → (∀ m ∈ ms, goodMember prims m) →
      ∀ (kb : List Nat) (s : Pass0State),
      runS (pass0Handler prims) .seekKeyStart kb (renderMembers ms ++ [125]) s =
        .ok ⟨s.hashInput ++ (dataValues ms).flatten,
             lastDecoded prims signingPublicKeyDigestKey ms s.jsonSigningPublicKey,
             lastDecoded prims signatureKey ms s.jsonSignature⟩ := by
  intro ms
  induction ms with
  | nil => intro hms; exact absurd rfl hms
  | cons m rest ih =>
    intro _ hgood kb s
    have hm := hgood m (by simp)
    cases rest with
    | nil =>
      rw [show renderMembers [m] = renderMember m from rfl,
        runS_member_pass0 prims m hm kb [125] s, runS_nextPair_brace, runS_objEnd_nil]
      rw [show pass0Update prims m s =
          ⟨(pass0Update prims m s).hashInput ++ (dataValues []).flatten,
           lastDecoded prims signingPublicKeyDigestKey []
             (pass0Update prims m s).jsonSigningPublicKey,
           lastDecoded prims signatureKey []
             (pass0Update prims m s).jsonSignature⟩ from by
        simp [dataValues, lastDecoded, lastValueOf]]
      rw [pass0State_fold_cons prims m [] s hm]
    | cons m1 rest1 =>
      have hshape : renderMembers (m :: m1 :: rest1) ++ [125] =
          renderMember m ++ (44 :: (renderMembers (m1 :: rest1) ++ [125])) := by
        simp [renderMembers]
      rw [hshape, runS_member_pass0 prims m hm kb _ s, runS_nextPair_comma,
        ih (by simp) (fun x hx => hgood x (List.mem_cons_of_mem _ hx)) m.1
          (pass0Update prims m s)]
      rw [pass0State_fold_cons prims m (m1 :: rest1) s hm]

/-- The state update a good non-data member causes in the pass-1
handler. -/
def pass1Update (prims : Prims) (m : Member) (s : Pass1State) : Pass1State :=
  if m.1 = signingPublicKeyDigestKey then
    { s with jsonSigningPublicKey := prims.base64Decode m.2 }
  else { s with jsonSignature := prims.base64Decode m.2 }

/-- Processing one good non-data member in pass 1 mirrors pass 0. -/
theorem runS_member_pass1_nondata (prims : Prims) (m : Member)
    (hm : goodMember prims m) (hnd : m.1 ≠ dataKey)
    (kb tail : List Nat) (s : Pass1State) :
    runS (pass1Handler prims) .seekKeyStart kb (renderMember m ++ tail) s =
      runS (pass1Handler prims) .seekNextPair m.1 tail (pass1Update prims m s) := by
  obtain ⟨hk34, hk92, hv34, hv92, hkey⟩ := hm
  have hshape : renderMember m ++ tail =
      34 :: (m.1 ++ 34 :: 58 :: 34 :: (m.2 ++ 34 :: tail)) := by
    simp [renderMember]
  rw [hshape, runS_keyStart_quote,
    runS_keyEnd_clean (pass1Handler prims) m.1 hk34 hk92, List.nil_append,
    runS_colon, runS_valueStart_quote (pass1Handler prims) (pass1Handler_HB prims)]
  rcases hkey with hdata | ⟨hks, hdec⟩
  · exact absurd hdata hnd
  · obtain ⟨d, hd⟩ := Option.isSome_iff_exists.mp hdec
    rcases hks with hdig | hsig
    · rw [show pass1Handler prims m.1 (m.2 ++ 34 :: tail) s =
          .ok (true, tail, { s with jsonSigningPublicKey := some d }) from by
        unfold pass1Handler jsonReadBase64Value
        rw [if_neg hnd, if_pos hdig, readStringValue_clean m.2 hv34 hv92]
        simp [hd]]
      simp +decide [pass1Update, hdig, hd]
    · have hndig : m.1 ≠ signingPublicKeyDigestKey := by rw [hsig]; decide
      rw [show pass1Handler prims m.1 (m.2 ++ 34 :: tail) s =
          .ok (true, tail, { s with jsonSignature := some d }) from by
        unfold pass1Handler jsonReadBase64Value
        rw [if_neg hnd, if_neg hndig, if_pos hsig, readStringValue_clean m.2 hv34 hv92]
        simp [hd]]
      simp +decide [pass1Update, hndig, hsig, hd]

/-- Processing a data member in pass 1 captures the reader position at the
first byte of the value and halts streaming with no error. -/
theorem runS_member_pass1_data (prims : Prims) (m : Member)
    (hm : goodMember prims m) (hdata : m.1 = dataKey)
    (kb tail : List Nat) (s : Pass1State) :
    runS (pass1Handler prims) .seekKeyStart kb (renderMember m ++ tail) s =
      .ok { s with jsonData := some (m.2 ++ 34 :: tail) } := by
  obtain ⟨hk34, hk92, hv34, hv92, _⟩ := hm
  have hshape : renderMember m ++ tail =
      34 :: (m.1 ++ 34 :: 58 :: 34 :: (m.2 ++ 34 :: tail)) := by
    simp [renderMember]
  rw [hshape, runS_keyStart_quote,
    runS_keyEnd_clean (pass1Handler prims) m.1 hk34 hk92, List.nil_append,
    runS_colon, runS_valueStart_quote (pass1Handler prims) (pass1Handler_HB prims)]
  rw [show pass1Handler prims m.1 (m.2 ++ 34 :: tail) s =
      .ok (false, m.2 ++ 34 :: tail, { s with jsonData := some (m.2 ++ 34 :: tail) }) from by
    unfold pass1Handler
    rw [if_pos hdata]]
  simp

/-- Pass-1 streaming of a rendered member list: when a data member exists,
the returned state's captured reader is positioned at the first byte of the
value of the first data member (whose value bytes are clean); when no data
member exists the capture is untouched. -/
theorem runS_members_pass1 (prims : Prims) :
    ∀ (ms : List Member), ms ≠ [] → (∀ m ∈ ms, goodMember prims m) →
      ∀ (kb : List Nat) (s : Pass1State),
      match firstValueOf dataKey ms with
      | some v =>
        ∃ tail st, runS (pass1Handler prims) .seekKeyStart kb (renderMembers ms ++ [125]) s =
            .ok st ∧ st.jsonData = some (v ++ 34 :: tail) ∧ 34 ∉ v ∧ 92 ∉ v
      | none =>
        ∃ st, runS (pass1Handler prims) .seekKeyStart kb (renderMembers ms ++ [125]) s =
            .ok st ∧ st.jsonData = s.jsonData := by
  intro ms
  induction ms with
  | nil => intro hms; exact absurd rfl hms
  | cons m rest ih =>
    intro _ hgood kb s
    have hm := hgood m (by simp)
    by_cases hdata : m.1 = dataKey
    · rw [show firstValueOf dataKey (m :: rest) = some m.2 from by
        simp [firstValueOf, hdata]]
      cases rest with
      | nil =>
        refine ⟨[125], { s with jsonData := some (m.2 ++ 34 :: [125]) }, ?_, rfl,
          hm.2.2.1, hm.2.2.2.1⟩
        rw [show renderMembers [m] = renderMember m from rfl]
        exact runS_member_pass1_data prims m hm hdata kb [125] s
      | cons m1 rest1 =>
        have hshape : renderMembers (m :: m1 :: rest1) ++ [125] =
            renderMember m ++ (44 :: (renderMembers (m1 :: rest1) ++ [125])) := by
          simp [renderMembers]
        refine ⟨44 :: (renderMembers (m1 :: rest1) ++ [125]),
          { s with jsonData := some (m.2 ++ 34 :: (44 :: (renderMembers (m1 :: rest1) ++ [125]))) },
          ?_, rfl, hm.2.2.1, hm.2.2.2.1⟩
        rw [hshape]
        exact runS_member_pass1_data prims m hm hdata kb _ s
    · have hfi : firstValueOf dataKey (m :: rest) = firstValueOf dataKey rest := by
        simp [firstValueOf, hdata]
      rw [hfi]
      have hjd : (pass1Update prims m s).jsonData = s.jsonData := by
        unfold pass1Update
        by_cases hdig : m.1 = signingPublicKeyDigestKey <;> simp [hdig]
      cases rest with
      | nil =>
        rw [show firstValueOf dataKey ([] : List Member) = none from rfl]
        refine ⟨pass1Update prims m s, ?_, hjd⟩
        rw [show renderMembers [m] = renderMember m from rfl,
          runS_member_pass1_nondata prims m hm hdata kb [125] s,
          runS_nextPair_brace, runS_objEnd_nil]
      | cons m1 rest1 =>
        have hshape : renderMembers (m :: m1 :: rest1) ++ [125] =
            renderMember m ++ (44 :: (renderMembers (m1 :: rest1) ++ [125])) := by
          simp [renderMembers]
        have ih1 := ih (by simp) (fun x hx => hgood x (List.mem_cons_of_mem _ hx)) m.1
          (pass1Update prims m s)
        rw [hshape, runS_member_pass1_nondata prims m hm hdata kb _ s,
          runS_nextPair_comma]
        cases hfi1 : firstValueOf dataKey (m1 :: rest1) with
        | some v =>
          rw [hfi1] at ih1
          obtain ⟨tail, st, hrun, hcap, hv1, hv2⟩ := ih1
          exact ⟨tail, st, hrun, hcap, hv1, hv2⟩
        | none =>
          rw [hfi1] at ih1
          obtain ⟨st, hrun, hcap⟩ := ih1
          exact ⟨st, hrun, by rw [hcap, hjd]⟩

/-- Entering a rendered object: the opening brace, then the member list. -/
theorem streamJSON_renderObject {σ : Type} (h : JHandler σ) (ms : List Member) (s : σ) :
    streamJSON h (renderObject ms) s =
      runS h .seekKeyStart [] (renderMembers ms ++ [125]) s := by
  unfold streamJSON renderObject
  rw [show [123] ++ renderMembers ms ++ [125] = 123 :: (renderMembers ms ++ [125]) by simp]
  exact runS_open h [] _ s

/-- C9: duplicate member keys are not rejected. For every rendered envelope
whose members all carry one of the three package keys (with decodable
base64 fields), even with repeated keys: pass 0 succeeds with a hash input
that is the concatenation, in document order, of every data value, and with
the collected digest and signature taken from the last occurrence of
signingPublicKeyDigest and of signature respectively (these are the values
the subsequent verification uses); and whenever a data member exists, pass
1 returns a reader whose content is the value of the first data member. -/
theorem streaming_duplicate_keys (prims : Prims) (ms : List Member)
    (hne : ms ≠ []) (hgood : ∀ m ∈ ms, goodMember prims m) :
    streamJSON (pass0Handler prims) (renderObject ms) initialPass0 =
      .ok ⟨(dataValues ms).flatten,
           lastDecoded prims signingPublicKeyDigestKey ms none,
           lastDecoded prims signatureKey ms none⟩ ∧
    (∀ v, firstValueOf dataKey ms = some v →
      ∃ p, pass1Run prims (renderObject ms) = .ok p ∧ drainValue p = .ok v) := by
  constructor
  · rw [streamJSON_renderObject,
      runS_members_pass0 prims ms hne hgood [] initialPass0]
    rfl
  · intro v hv
    have h1 := runS_members_pass1 prims ms hne hgood [] initialPass1
    rw [hv] at h1
    obtain ⟨tail, st, hrun, hcap, hv34, hv92⟩ := h1
    refine ⟨v ++ 34 :: tail, ?_, ?_⟩
    · unfold pass1Run
      rw [streamJSON_renderObject, hrun]
      simp [hcap]
    · unfold drainValue
      rw [readStringValue_clean v hv34 hv92 tail]
      rfl

/-- A member list with repeated data and signingPublicKeyDigest keys, used
by the C9 witness: data values [104] and [105], digest values decoding to
[9] then [52, 98], signature decoding to [104, 105]. -/
def msDup : List Member :=
  [(dataKey, [104]),
   (signingPublicKeyDigestKey, [48, 57]),
   (dataKey, [105]),
   (signingPublicKeyDigestKey, [51, 52, 54, 50]),
   (signatureKey, [54, 56, 54, 57])]

/-- Witness for C9 on a concrete duplicate-keyed envelope: the hash input
concatenates both data values, the second digest occurrence wins, and the
pass-1 reader yields the first data value. -/
theorem streaming_duplicate_keys_witness :
    streamJSON (pass0Handler testPrims) (renderObject msDup) initialPass0 =
      .ok ⟨[104, 105], some [52, 98], some [104, 105]⟩ ∧
    ∃ p, pass1Run testPrims (renderObject msDup) = .ok p ∧
      drainValue p = .ok [104] := by
  obtain ⟨h0, h1⟩ := streaming_duplicate_keys testPrims msDup (by decide) (by decide)
  exact ⟨by rw [h0]; rfl, h1 [104] (by rfl)⟩

/-- With no data member there are no data values. -/
theorem dataValues_eq_nil (ms : List Member)
    (hnodata : ∀ m ∈ ms, m.1 ≠ dataKey) : dataValues ms = [] := by
  induction ms with
  | nil => rfl
  | cons m rest ih =>
    simp [dataValues, hnodata m (by simp)]
    exact ih (fun x hx => hnodata x (List.mem_cons_of_mem _ hx))

/-- With no member carrying the key, firstValueOf finds nothing. -/
theorem firstValueOf_eq_none (k : List Nat) (ms : List Member)
    (hno : ∀ m ∈ ms, m.1 ≠ k) : firstValueOf k ms = none := by
  induction ms with
  | nil => rfl
  | cons m rest ih =>
    simp [firstValueOf, hno m (by simp)]
    exact ih (fun x hx => hno x (List.mem_cons_of_mem _ hx))

/-- C10: a package whose object has no data member still passes pass 0 of
the streaming verifier whenever the stored signature verifies over SHA-256
of the empty byte string (the hash is finalized with no input); the missing
member is detected only afterwards, in pass 1, which fails with the
missing-field error. -/
theorem missingData_passes_pass0 (prims : Prims) (ms : List Member)
    (pk der dg sg : List Nat)
    (hne : ms ≠ []) (hgood : ∀ m ∈ ms, goodMember prims m)
    (hnodata : ∀ m ∈ ms, m.1 ≠ dataKey)
    (hdig : lastDecoded prims signingPublicKeyDigestKey ms none = some dg)
    (hsig : lastDecoded prims signatureKey ms none = some sg)
    (hb64 : prims.base64Decode pk = some der)
    (hparse : prims.parsePKIXPublicKey der = true)
    (hrsa : prims.isRSAPublicKey der = true)
    (hmatch : dg = prims.sha256 pk)
    (hver : prims.rsaVerifyPKCS1v15 der (prims.sha256 []) sg = true) :
    pass0Run prims (renderObject ms) pk = .ok () ∧
    streamingReadPlain prims (renderObject ms) pk = .error .missingField := by
  have h0 : pass0Run prims (renderObject ms) pk = .ok () := by
    unfold pass0Run
    rw [streamJSON_renderObject, runS_members_pass0 prims ms hne hgood [] initialPass0]
    rw [show initialPass0.hashInput ++ (dataValues ms).flatten = ([] : List Nat) from by
      rw [dataValues_eq_nil ms hnodata]; rfl]
    rw [show lastDecoded prims signingPublicKeyDigestKey ms initialPass0.jsonSigningPublicKey
        = some dg from hdig]
    rw [show lastDecoded prims signatureKey ms initialPass0.jsonSignature = some sg from hsig]
    rw [hb64]
    simp [hparse, hrsa, hmatch, hver]
  refine ⟨h0, ?_⟩
  unfold streamingReadPlain
  rw [h0]
  have h1 := runS_members_pass1 prims ms hne hgood [] initialPass1
  rw [firstValueOf_eq_none dataKey ms hnodata] at h1
  obtain ⟨st, hrun, hcap⟩ := h1
  unfold pass1Run
  rw [streamJSON_renderObject, hrun]
  simp [hcap, initialPass1]

/-- The data-less member list for the C10 witness: a digest decoding to
[52, 98] and an empty signature value decoding to the empty byte string. -/
def msNoData : List Member :=
  [(signingPublicKeyDigestKey, [51, 52, 54, 50]), (signatureKey, [])]

/-- Witness for C10: under the concrete primitives the signature over the
empty hash verifies, pass 0 accepts the data-less package, and the overall
streaming read fails only with the pass-1 missing-field error. -/
theorem missingData_passes_pass0_witness :
    pass0Run testPrims (renderObject msNoData) [52, 98] = .ok () ∧
    streamingReadPlain testPrims (renderObject msNoData) [52, 98] =
      .error .missingField :=
  missingData_passes_pass0 testPrims msNoData [52, 98] [75] [52, 98] []
    (by decide) (by decide) (by decide) (by rfl) (by rfl) (by rfl) (by rfl)
    (by rfl) (by rfl) (by rfl)

/-! Decoding a rendered envelope with the modelled json.Unmarshal. -/

/-- A leading non-whitespace byte stops whitespace skipping. -/
theorem skipWS_nonws (b : Nat) (l : List Nat) (hb : isWhitespace b = false) :
    skipWS (b :: l) = b :: l := by simp [skipWS, hb]

/-- Parsing a clean (escape-free, quote-free) JSON string body. -/
theorem parseJString_clean (v : List Nat) (hq : 34 ∉ v) (hb : 92 ∉ v) :
    ∀ l, parseJString (v ++ 34 :: l) = .ok (v, l) := by
  induction v with
  | nil =>
    intro l
    rw [parseJString.eq_def]
    simp
  | cons c v ih =>
    intro l
    have hc34 : c ≠ 34 := fun hc => hq (by simp [hc])
    have hc92 : c ≠ 92 := fun hc => hb (by simp [hc])
    rw [List.cons_append, parseJString.eq_def]
    simp [hc34, hc92,
      ih (fun hm => hq (by simp [hm])) (fun hm => hb (by simp [hm]))]

/-- The struct update of one good member under json.Unmarshal (total form,
defined for good members whose base64 fields decode). -/
def goodSetField (prims : Prims) (acc : AuthenticatedDataPackage) (m : Member) :
    AuthenticatedDataPackage :=
  if m.1 = dataKey then { acc with Data := m.2 }
  else if m.1 = signingPublicKeyDigestKey then
    { acc with SigningPublicKeyDigest := (prims.base64Decode m.2).getD [] }
  else if m.1 = signatureKey then
    { acc with Signature := (prims.base64Decode m.2).getD [] }
  else acc

/-- On good members, unmarshalSetField is the total update. -/
theorem unmarshalSetField_good (prims : Prims) (acc : AuthenticatedDataPackage)
    (m : Member) (hm : goodMember prims m) :
    unmarshalSetField prims acc m.1 m.2 = .ok (goodSetField prims acc m) := by
  rcases hm.2.2.2.2 with hdata | ⟨hks, hdec⟩
  · simp [unmarshalSetField, goodSetField, hdata]
  · obtain ⟨d, hd⟩ := Option.isSome_iff_exists.mp hdec
    rcases hks with hdig | hsig
    · have h1 : m.1 ≠ dataKey := by rw [hdig]; decide
      simp +decide [unmarshalSetField, goodSetField, h1, hdig, hd]
    · have h1 : m.1 ≠ dataKey := by rw [hsig]; decide
      have h2 : m.1 ≠ signingPublicKeyDigestKey := by rw [hsig]; decide
      simp +decide [unmarshalSetField, goodSetField, h1, h2, hsig, hd]

/-- The member-by-member struct fold of json.Unmarshal over a member
list. -/
def unmarshalFold (prims : Prims) (acc : AuthenticatedDataPackage) :
    List Member → AuthenticatedDataPackage
  | [] => acc
  | m :: ms => unmarshalFold prims (goodSetField prims acc m) ms

/-- The member loop of the modelled Unmarshal consumes a rendered member
list followed by the closing brace and folds the struct updates. -/
theorem unmarshalMembers_render (prims : Prims) :
    ∀ (ms : List Member) (f : Nat) (acc : AuthenticatedDataPackage),
      ms ≠ [] → (∀ m ∈ ms, goodMember prims m) → ms.length < f →
      unmarshalMembers prims f acc (renderMembers ms ++ [125]) =
        .ok (unmarshalFold prims acc ms, []) := by
  intro ms
  induction ms with
  | nil => intro f acc hne; exact absurd rfl hne
  | cons m rest ih =>
    intro f acc _ hgood hf
    have hm := hgood m (by simp)
    obtain ⟨hk34, hk92, hv34, hv92, _⟩ := hm
    have hset := unmarshalSetField_good prims acc m (hgood m (by simp))
    have hp1 := parseJString_clean m.1 hk34 hk92
    have hp2 := parseJString_clean m.2 hv34 hv92
    match f, hf with
    | f + 1, hf =>
      cases rest with
      | nil =>
        have hshape : renderMembers [m] ++ [125] =
            34 :: (m.1 ++ 34 :: 58 :: 34 :: (m.2 ++ 34 :: [125])) := by
          simp [renderMembers, renderMember]
        rw [hshape]
        simp +decide [unmarshalMembers, skipWS_nonws, hp1, hp2, hset, unmarshalFold]
      | cons m1 rest1 =>
        have hshape : renderMembers (m :: m1 :: rest1) ++ [125] =
            34 :: (m.1 ++ 34 :: 58 :: 34 ::
              (m.2 ++ 34 :: (44 :: (renderMembers (m1 :: rest1) ++ [125])))) := by
          simp [renderMembers, renderMember]
        have ih1 := ih f (goodSetField prims acc m) (by simp)
          (fun x hx => hgood x (List.mem_cons_of_mem _ hx))
          (by simp at hf; simpa using hf)
        rw [hshape]
        simp +decide [unmarshalMembers, skipWS_nonws, hp1, hp2, hset, unmarshalFold, ih1]

/-- A rendered member list is at least as long as the member count. -/
theorem renderMembers_length (ms : List Member) :
    ms.length ≤ (renderMembers ms).length := by
  induction ms with
  | nil => simp [renderMembers]
  | cons m rest ih =>
    cases rest with
    | nil =>
      simp [renderMembers, renderMember]
    | cons a b =>
      simp only [renderMembers, renderMember, List.length_append, List.length_cons] at *
      simp at *
      omega

/-- The modelled json.Unmarshal decodes a rendered good member list into
the member-by-member struct fold. -/
theorem jsonUnmarshalPackage_render (prims : Prims) (ms : List Member)
    (hne : ms ≠ []) (hgood : ∀ m ∈ ms, goodMember prims m) :
    jsonUnmarshalPackage prims (renderObject ms) =
      .ok (some (unmarshalFold prims default ms)) := by
  cases ms with
  | nil => exact absurd rfl hne
  | cons m ms1 =>
    obtain ⟨Y, hY⟩ : ∃ Y, renderMembers (m :: ms1) = 34 :: Y := by
      cases ms1 with
      | nil =>
        exact ⟨m.1 ++ 34 :: 58 :: 34 :: (m.2 ++ [34]),
          by simp [renderMembers, renderMember]⟩
      | cons a b =>
        exact ⟨m.1 ++ 34 :: 58 :: 34 :: (m.2 ++ 34 :: 44 :: renderMembers (a :: b)),
          by simp [renderMembers, renderMember]⟩
    have hlen2 : (m :: ms1).length < Y.length + 1 + 1 + 1 + 1 := by
      have h3 := renderMembers_length (m :: ms1)
      rw [hY] at h3
      simp only [List.length_cons] at h3 ⊢
      omega
    have hrun := unmarshalMembers_render prims (m :: ms1)
      (Y.length + 1 + 1 + 1 + 1) default (by simp) hgood hlen2
    unfold jsonUnmarshalPackage
    rw [show renderObject (m :: ms1) = 123 :: (renderMembers (m :: ms1) ++ [125]) from by
      simp [renderObject]]
    rw [skipWS_nonws 123 _ (by rfl)]
    rw [hY] at hrun ⊢
    rw [List.cons_append] at hrun
    simp +decide [skipWS_nonws, hrun, skipWS]

/-- The Data field after the struct fold: the last data member wins. -/
theorem goodSetField_Data (prims : Prims) (acc : AuthenticatedDataPackage)
    (m : Member) :
    (goodSetField prims acc m).Data = if m.1 = dataKey then m.2 else acc.Data := by
  unfold goodSetField
  by_cases h1 : m.1 = dataKey
  · simp [h1]
  · rw [if_neg h1, if_neg h1]
    by_cases h2 : m.1 = signingPublicKeyDigestKey
    · simp [h2]
    · rw [if_neg h2]
      by_cases h3 : m.1 = signatureKey
      · simp [h3]
      · rw [if_neg h3]

/-- The digest field after one struct update. -/
theorem goodSetField_Digest (prims : Prims) (acc : AuthenticatedDataPackage)
    (m : Member) :
    (goodSetField prims acc m).SigningPublicKeyDigest =
      if m.1 = signingPublicKeyDigestKey then (prims.base64Decode m.2).getD []
      else acc.SigningPublicKeyDigest := by
  unfold goodSetField
  by_cases h1 : m.1 = dataKey
  · simp +decide [h1]
  · rw [if_neg h1]
    by_cases h2 : m.1 = signingPublicKeyDigestKey
    · simp [h2]
    · rw [if_neg h2, if_neg h2]
      by_cases h3 : m.1 = signatureKey
      · simp [h3]
      · rw [if_neg h3]

/-- The signature field after one struct update. -/
theorem goodSetField_Signature (prims : Prims) (acc : AuthenticatedDataPackage)
    (m : Member) :
    (goodSetField prims acc m).Signature =
      if m.1 = signatureKey then (prims.base64Decode m.2).getD []
      else acc.Signature := by
  unfold goodSetField
  by_cases h1 : m.1 = dataKey
  · simp +decide [h1]
  · rw [if_neg h1]
    by_cases h2 : m.1 = signingPublicKeyDigestKey
    · simp +decide [h2]
    · rw [if_neg h2]
      by_cases h3 : m.1 = signatureKey
      · simp [h3]
      · rw [if_neg h3, if_neg h3]

/-- The folded Data field is the last data value. -/
theorem unmarshalFold_Data (prims : Prims) :
    ∀ (ms : List Member) (acc : AuthenticatedDataPackage),
      (unmarshalFold prims acc ms).Data =
        match lastValueOf dataKey ms with
        | none => acc.Data
        | some v => v := by
  intro ms
  induction ms with
  | nil => intro acc; rfl
  | cons m rest ih =>
    intro acc
    rw [show unmarshalFold prims acc (m :: rest) =
        unmarshalFold prims (goodSetField prims acc m) rest from rfl, ih]
    cases hlast : lastValueOf dataKey rest with
    | some v => simp [lastValueOf, hlast]
    | none =>
      simp only [lastValueOf, hlast, goodSetField_Data]
      by_cases h : m.1 = dataKey <;> simp [h]

/-- The folded digest field is the decoding of the last digest value. -/
theorem unmarshalFold_Digest (prims : Prims) :
    ∀ (ms : List Member) (acc : AuthenticatedDataPackage),
      (unmarshalFold prims acc ms).SigningPublicKeyDigest =
        match lastValueOf signingPublicKeyDigestKey ms with
        | none => acc.SigningPublicKeyDigest
        | some v => (prims.base64Decode v).getD [] := by
  intro ms
  induction ms with
  | nil => intro acc; rfl
  | cons m rest ih =>
    intro acc
    rw [show unmarshalFold prims acc (m :: rest) =
        unmarshalFold prims (goodSetField prims acc m) rest from rfl, ih]
    cases hlast : lastValueOf signingPublicKeyDigestKey rest with
    | some v => simp [lastValueOf, hlast]
    | none =>
      simp only [lastValueOf, hlast, goodSetField_Digest]
      by_cases h : m.1 = signingPublicKeyDigestKey <;> simp [h]

/-- The folded signature field is the decoding of the last signature
value. -/
theorem unmarshalFold_Signature (prims : Prims) :
    ∀ (ms : List Member) (acc : AuthenticatedDataPackage),
      (unmarshalFold prims acc ms).Signature =
        match lastValueOf signatureKey ms with
        | none => acc.Signature
        | some v => (prims.base64Decode v).getD [] := by
  intro ms
  induction ms with
  | nil => intro acc; rfl
  | cons m rest ih =>
    intro acc
    rw [show unmarshalFold prims acc (m :: rest) =
        unmarshalFold prims (goodSetField prims acc m) rest from rfl, ih]
    cases hlast : lastValueOf signatureKey rest with
    | some v => simp [lastValueOf, hlast]
    | none =>
      simp only [lastValueOf, hlast, goodSetField_Signature]
      by_cases h : m.1 = signatureKey <;> simp [h]

/-- A last value belongs to the member list. -/
theorem lastValueOf_mem (k : List Nat) :
    ∀ (ms : List Member) (v : List Nat),
      lastValueOf k ms = some v → (k, v) ∈ ms := by
  intro ms
  induction ms with
  | nil => intro v h; simp [lastValueOf] at h
  | cons m rest ih =>
    intro v h
    unfold lastValueOf at h
    cases hlast : lastValueOf k rest with
    | some w =>
      rw [hlast] at h
      simp at h
      exact List.mem_cons_of_mem _ (h ▸ ih w hlast)
    | none =>
      rw [hlast] at h
      simp at h
      obtain ⟨hk, hv⟩ := h
      have hm : (k, v) = m := by rw [← hk, ← hv]
      rw [hm]
      exact List.mem_cons_self m rest

/-- No data member, no last data value. -/
theorem lastValueOf_data_none :
    ∀ (ms : List Member), dataValues ms = [] → lastValueOf dataKey ms = none := by
  intro ms
  induction ms with
  | nil => intro h; rfl
  | cons m rest ih =>
    intro h
    unfold dataValues at h
    by_cases hk : m.1 = dataKey
    · rw [if_pos hk] at h; simp at h
    · rw [if_neg hk] at h
      unfold lastValueOf
      rw [ih h, if_neg hk]

/-- A unique data member is both the first and the last data value. -/
theorem valueOf_data_single :
    ∀ (ms : List Member) (D : List Nat), dataValues ms = [D] →
      lastValueOf dataKey ms = some D ∧ firstValueOf dataKey ms = some D := by
  intro ms
  induction ms with
  | nil => intro D h; simp [dataValues] at h
  | cons m rest ih =>
    intro D h
    unfold dataValues at h
    by_cases hk : m.1 = dataKey
    · rw [if_pos hk] at h
      simp at h
      constructor
      · unfold lastValueOf
        rw [lastValueOf_data_none rest h.2, if_pos hk, h.1]
      · unfold firstValueOf
        rw [if_pos hk, h.1]
    · rw [if_neg hk] at h
      obtain ⟨h1, h2⟩ := ih D h
      constructor
      · unfold lastValueOf
        rw [h1]
      · unfold firstValueOf
        rw [if_neg hk]
        exact h2

/-- Inversion of a successful in-memory read: every stage succeeded and the
returned value is the decoded package's data. -/
theorem readPackage_ok_inv (prims : Prims) (c pk D0 : List Nat)
    (h : ReadAuthenticatedDataPackage prims c pk = .ok D0) :
    ∃ plain pkg der,
      prims.decompress c = some plain ∧
      jsonUnmarshalPackage prims plain = .ok (some pkg) ∧
      prims.base64Decode pk = some der ∧
      prims.parsePKIXPublicKey der = true ∧
      prims.isRSAPublicKey der = true ∧
      pkg.SigningPublicKeyDigest = prims.sha256 pk ∧
      prims.rsaVerifyPKCS1v15 der (prims.sha256 pkg.Data) pkg.Signature = true ∧
      D0 = pkg.Data := by
  unfold ReadAuthenticatedDataPackage at h
  split at h
  · simp at h
  next plain hplain =>
    split at h
    · simp at h
    next pkgOpt hun =>
      split at h
      · simp at h
      next der hder =>
        split at h
        · simp at h
        next hparse =>
          split at h
          · simp at h
          next hrsa =>
            cases pkgOpt with
            | none => simp at h
            | some pkg =>
              split at h
              · simp at h
              next p hp =>
                split at h
                · simp at h
                next hdig =>
                  split at h
                  · simp at h
                  next hver =>
                    obtain rfl : pkg = p := by
                      injection hp
                    refine ⟨plain, pkg, der, hplain, hun, hder, ?_, ?_, ?_, ?_, ?_⟩
                    · simpa using hparse
                    · simpa using hrsa
                    · simpa using hdig
                    · simpa using hver
                    · simp at h
                      exact h.symm

/-- C3 amended: streaming equivalence on limited-grammar envelopes. For
every package whose decompressed bytes render an envelope whose members all
carry the three package keys with clean, decodable values, with exactly one
data member and at least one digest and one signature member: whenever
the in-memory read_package accepts the package and returns D, the streaming
read also succeeds and reading its returned reader to end-of-input yields
exactly D. (Unrestricted, the claim fails: json.Unmarshal ignores unknown
members that the streaming parser rejects; see the counterexample.) -/
theorem streaming_matches_read (prims : Prims) (file pk : List Nat)
    (ms : List Member) (D D0 : List Nat)
    (hplain : prims.decompress file = some (renderObject ms))
    (hgood : ∀ m ∈ ms, goodMember prims m)
    (hone : dataValues ms = [D])
    (hdgv : (lastValueOf signingPublicKeyDigestKey ms).isSome)
    (hsgv : (lastValueOf signatureKey ms).isSome)
    (hread : ReadAuthenticatedDataPackage prims file pk = .ok D0) :
    ∃ p, StreamingReadAuthenticatedDataPackage prims file pk = .ok p ∧
      drainValue p = .ok D0 := by
  have hne : ms ≠ [] := by
    intro hnil
    rw [hnil] at hone
    simp [dataValues] at hone
  obtain ⟨dgv, hdg⟩ := Option.isSome_iff_exists.mp hdgv
  obtain ⟨sgv, hsg⟩ := Option.isSome_iff_exists.mp hsgv
  obtain ⟨hlastD, hfirstD⟩ := valueOf_data_single ms D hone
  obtain ⟨plain, pkg, der, hplain2, hun, hder, hparse, hrsa, hdigeq, hver, hD0⟩ :=
    readPackage_ok_inv prims file pk D0 hread
  rw [hplain] at hplain2
  have hplaineq : plain = renderObject ms := by
    exact (Option.some.injEq _ _).mp hplain2.symm
  rw [hplaineq, jsonUnmarshalPackage_render prims ms hne hgood] at hun
  have hpkg : pkg = unmarshalFold prims default ms := by
    simpa using hun.symm
  have hdgood : (prims.base64Decode dgv).isSome := by
    have hmem := lastValueOf_mem signingPublicKeyDigestKey ms dgv hdg
    have hg := hgood _ hmem
    rcases hg.2.2.2.2 with hbad | ⟨_, hdec⟩
    · exact absurd (show signingPublicKeyDigestKey = dataKey from hbad) (by decide)
    · exact hdec
  have hsgood : (prims.base64Decode sgv).isSome := by
    have hmem := lastValueOf_mem signatureKey ms sgv hsg
    have hg := hgood _ hmem
    rcases hg.2.2.2.2 with hbad | ⟨_, hdec⟩
    · exact absurd (show signatureKey = dataKey from hbad) (by decide)
    · exact hdec
  obtain ⟨ddg, hddg⟩ := Option.isSome_iff_exists.mp hdgood
  obtain ⟨dsg, hdsg⟩ := Option.isSome_iff_exists.mp hsgood
  have hpkgData : pkg.Data = D := by
    rw [hpkg, unmarshalFold_Data prims ms default, hlastD]
  have hpkgDig : pkg.SigningPublicKeyDigest = ddg := by
    rw [hpkg, unmarshalFold_Digest prims ms default, hdg]
    simp [hddg]
  have hpkgSig : pkg.Signature = dsg := by
    rw [hpkg, unmarshalFold_Signature prims ms default, hsg]
    simp [hdsg]
  have hddgpk : ddg = prims.sha256 pk := by rw [← hpkgDig, hdigeq]
  have h0 : pass0Run prims (renderObject ms) pk = .ok () := by
    unfold pass0Run
    rw [streamJSON_renderObject,
      runS_members_pass0 prims ms hne hgood [] initialPass0]
    rw [show lastDecoded prims signingPublicKeyDigestKey ms
        initialPass0.jsonSigningPublicKey = some ddg from by
      unfold lastDecoded
      rw [hdg]
      simp [hddg]]
    rw [show lastDecoded prims signatureKey ms initialPass0.jsonSignature
        = some dsg from by
      unfold lastDecoded
      rw [hsg]
      simp [hdsg]]
    rw [hder]
    have hhash : initialPass0.hashInput ++ (dataValues ms).flatten = D := by
      rw [hone]
      simp [initialPass0]
    simp only [hhash]
    rw [hpkgData, hpkgSig] at hver
    simp [hparse, hrsa, hddgpk, hver]
  have h1 := runS_members_pass1 prims ms hne hgood [] initialPass1
  rw [hfirstD] at h1
  obtain ⟨tail, st, hrun, hcap, hv34, hv92⟩ := h1
  refine ⟨D ++ 34 :: tail, ?_, ?_⟩
  · unfold StreamingReadAuthenticatedDataPackage streamingReadPlain
    rw [hplain]
    simp only [h0]
    unfold pass1Run
    rw [streamJSON_renderObject, hrun]
    simp [hcap]
  · unfold drainValue
    rw [readStringValue_clean D hv34 hv92 tail]
    simp [Except.map, hD0, hpkgData]

/-- The four-member envelope (three package members plus an extra member
named extra) used by the C3 counterexample. -/
def msExtra : List Member :=
  [(dataKey, [104, 105]),
   (signingPublicKeyDigestKey, [51, 52, 54, 50]),
   (signatureKey, [54, 56, 54, 57]),
   ([101, 120, 116, 114, 97], [120])]

/-- Counterexample to C3 as stated: a package carrying one extra member is
accepted by the in-memory read (json.Unmarshal ignores unknown members and
the signature verifies), yet the streaming read fails with an
unexpected-key error instead of succeeding, so the streaming verdict does
not match read_package on every accepted input. -/
theorem streaming_matches_read_counterexample :
    ReadAuthenticatedDataPackage testPrims (renderObject msExtra) [52, 98] =
      .ok [104, 105] ∧
    StreamingReadAuthenticatedDataPackage testPrims (renderObject msExtra) [52, 98] =
      .error (.unexpectedKey [101, 120, 116, 114, 97]) := by
  exact ⟨by rfl, by rfl⟩

/-- The three-member envelope used by the amended-C3 witness. -/
def msThree : List Member :=
  [(dataKey, [104, 105]),
   (signingPublicKeyDigestKey, [51, 52, 54, 50]),
   (signatureKey, [54, 56, 54, 57])]

/-- Witness for the amended C3 on a concrete three-member envelope. -/
theorem streaming_matches_read_witness :
    ∃ p, StreamingReadAuthenticatedDataPackage testPrims (renderObject msThree) [52, 98] =
        .ok p ∧ drainValue p = .ok [104, 105] :=
  streaming_matches_read testPrims (renderObject msThree) [52, 98] msThree
    [104, 105] [104, 105] (by rfl) (by decide) (by rfl) (by rfl) (by rfl) (by rfl)

/-! Whitespace insertion between tokens. -/

/-- One token of the limited JSON subset: the structural bytes and a quoted
string with its body bytes. -/
inductive JTok where
  | lbrace
  | rbrace
  | colon
  | comma
  | str (b : List Nat)
deriving DecidableEq, Repr

/-- The on-wire bytes of a token. -/
def tokBytes : JTok → List Nat
  | .lbrace => [123]
  | .rbrace => [125]
  | .colon => [58]
  | .comma => [44]
  | .str b => [34] ++ b ++ [34]

/-- A token sequence interleaved with gap byte lists: each gap precedes the
corresponding token, and the remaining gaps trail the last token. An empty
gap list renders the tokens back to back. -/
def renderToks : List (List Nat) → List JTok → List Nat
  | gs, [] => gs.flatten
  | [], t :: ts => tokBytes t ++ renderToks [] ts
  | g :: gs, t :: ts => g ++ tokBytes t ++ renderToks gs ts

/-- A string token is a token only when its body contains no quote. -/
def cleanTok : JTok → Prop
  | .str b => 34 ∉ b
  | _ => True

/-- All gap bytes are whitespace. -/
def WSgaps (gs : List (List Nat)) : Prop :=
  ∀ g ∈ gs, ∀ b ∈ g, isWhitespace b = true

/-- The bytes that raise an unexpected-character error in a given state. -/
def errByte (st : JState) (b : Nat) : Prop :=
  isWhitespace b = false ∧
  match st with
  | .seekObjectStart => b ≠ 123
  | .seekKeyStart => b ≠ 34
  | .seekKeyEnd => False
  | .seekColon => b ≠ 58
  | .seekValueStart => b ≠ 34
  | .seekNextPair => b ≠ 44 ∧ b ≠ 125
  | .objectEnd => True

/-- An unexpected character fails identically whatever follows it. -/
theorem runS_err {σ : Type} (h : JHandler σ) (st : JState) (b : Nat)
    (he : errByte st b) (kb l : List Nat) (s : σ) :
    runS h st kb (b :: l) s = .error (.unexpectedChar st.tag b) := by
  obtain ⟨hws, hrest⟩ := he
  unfold runS
  rw [show (b :: l).length + 1 = (l.length + 1) + 1 by simp]
  cases st with
  | seekKeyEnd => exact hrest.elim
  | seekObjectStart => simp [streamAux, hws, hrest]
  | seekKeyStart => simp [streamAux, hws, hrest]
  | seekColon => simp [streamAux, hws, hrest]
  | seekValueStart => simp [streamAux, hws, hrest]
  | seekNextPair => simp [streamAux, hws, hrest.1, hrest.2]
  | objectEnd => simp [streamAux, hws]

/-- Splitting a byte list at its first backslash. -/
theorem first_backslash (b : List Nat) (h92 : 92 ∈ b) :
    ∃ b1 b2, b = b1 ++ 92 :: b2 ∧ 92 ∉ b1 := by
  induction b with
  | nil => simp at h92
  | cons c rest ih =>
    by_cases hc : c = 92
    · exact ⟨[], rest, by rw [hc]; rfl, by simp⟩
    · have hrest : 92 ∈ rest := by
        rcases List.mem_cons.mp h92 with h | h
        · exact absurd h.symm hc
        · exact h
      obtain ⟨b1, b2, heq, hnot⟩ := ih hrest
      refine ⟨c :: b1, b2, by rw [List.cons_append, ← heq], ?_⟩
      intro hm
      rcases List.mem_cons.mp hm with h | h
      · exact hc h.symm
      · exact hnot h

/-- Pass-0 streaming is unchanged by whitespace inserted between tokens:
running from any state other than the key scan over a gapped rendering of a
token sequence yields exactly the result over the gap-free rendering. -/
theorem sim0 (prims : Prims) :
    ∀ (toks : List JTok) (gaps : List (List Nat)) (st : JState) (kb : List Nat)
      (s : Pass0State),
      st ≠ .seekKeyEnd → WSgaps gaps → (∀ t ∈ toks, cleanTok t) →
      runS (pass0Handler prims) st kb (renderToks gaps toks) s =
        runS (pass0Handler prims) st kb (renderToks [] toks) s := by
  intro toks
  induction toks with
  | nil =>
    intro gaps st kb s hst hws _
    rw [show renderToks gaps [] = gaps.flatten from by cases gaps <;> rfl,
      show renderToks [] ([] : List JTok) = [] from rfl]
    have hwsf : ∀ b ∈ gaps.flatten, isWhitespace b = true := by
      intro b hb
      obtain ⟨g, hg, hbg⟩ := List.mem_flatten.mp hb
      exact hws g hg b hbg
    have hskip := runS_ws (pass0Handler prims) st hst gaps.flatten hwsf kb [] s
    rw [List.append_nil] at hskip
    exact hskip
  | cons t ts ih =>
    intro gaps st kb s hst hws hclean
    have hct := hclean t (by simp)
    have hcts : ∀ x ∈ ts, cleanTok x := fun x hx => hclean x (List.mem_cons_of_mem _ hx)
    cases gaps with
    | nil => rfl
    | cons g gs =>
      have hwsg : ∀ b ∈ g, isWhitespace b = true := hws g (by simp)
      have hwsgs : WSgaps gs := fun g1 hg1 => hws g1 (List.mem_cons_of_mem _ hg1)
      rw [show renderToks (g :: gs) (t :: ts) = g ++ (tokBytes t ++ renderToks gs ts) from by
        simp [renderToks]]
      rw [runS_ws (pass0Handler prims) st hst g hwsg]
      rw [show renderToks ([] : List (List Nat)) (t :: ts) =
        tokBytes t ++ renderToks [] ts from rfl]
      cases t with
      | lbrace =>
        simp only [tokBytes, List.cons_append, List.nil_append]
        cases st with
        | seekKeyEnd => exact absurd rfl hst
        | seekObjectStart =>
          rw [runS_open, runS_open]
          exact ih gs .seekKeyStart kb s (by simp) hwsgs hcts
        | seekKeyStart =>
          rw [runS_err _ .seekKeyStart 123 ⟨rfl, by decide⟩, runS_err _ .seekKeyStart 123 ⟨rfl, by decide⟩]
        | seekColon =>
          rw [runS_err _ .seekColon 123 ⟨rfl, by decide⟩, runS_err _ .seekColon 123 ⟨rfl, by decide⟩]
        | seekValueStart =>
          rw [runS_err _ .seekValueStart 123 ⟨rfl, by decide⟩, runS_err _ .seekValueStart 123 ⟨rfl, by decide⟩]
        | seekNextPair =>
          rw [runS_err _ .seekNextPair 123 ⟨rfl, by decide, by decide⟩,
            runS_err _ .seekNextPair 123 ⟨rfl, by decide, by decide⟩]
        | objectEnd =>
          rw [runS_err _ .objectEnd 123 ⟨rfl, trivial⟩, runS_err _ .objectEnd 123 ⟨rfl, trivial⟩]
      | rbrace =>
        simp only [tokBytes, List.cons_append, List.nil_append]
        cases st with
        | seekKeyEnd => exact absurd rfl hst
        | seekNextPair =>
          rw [runS_nextPair_brace, runS_nextPair_brace]
          exact ih gs .objectEnd kb s (by simp) hwsgs hcts
        | seekObjectStart =>
          rw [runS_err _ .seekObjectStart 125 ⟨rfl, by decide⟩, runS_err _ .seekObjectStart 125 ⟨rfl, by decide⟩]
        | seekKeyStart =>
          rw [runS_err _ .seekKeyStart 125 ⟨rfl, by decide⟩, runS_err _ .seekKeyStart 125 ⟨rfl, by decide⟩]
        | seekColon =>
          rw [runS_err _ .seekColon 125 ⟨rfl, by decide⟩, runS_err _ .seekColon 125 ⟨rfl, by decide⟩]
        | seekValueStart =>
          rw [runS_err _ .seekValueStart 125 ⟨rfl, by decide⟩, runS_err _ .seekValueStart 125 ⟨rfl, by decide⟩]
        | objectEnd =>
          rw [runS_err _ .objectEnd 125 ⟨rfl, trivial⟩, runS_err _ .objectEnd 125 ⟨rfl, trivial⟩]
      | colon =>
        simp only [tokBytes, List.cons_append, List.nil_append]
        cases st with
        | seekKeyEnd => exact absurd rfl hst
        | seekColon =>
          rw [runS_colon, runS_colon]
          exact ih gs .seekValueStart kb s (by simp) hwsgs hcts
        | seekObjectStart =>
          rw [runS_err _ .seekObjectStart 58 ⟨rfl, by decide⟩, runS_err _ .seekObjectStart 58 ⟨rfl, by decide⟩]
        | seekKeyStart =>
          rw [runS_err _ .seekKeyStart 58 ⟨rfl, by decide⟩, runS_err _ .seekKeyStart 58 ⟨rfl, by decide⟩]
        | seekValueStart =>
          rw [runS_err _ .seekValueStart 58 ⟨rfl, by decide⟩, runS_err _ .seekValueStart 58 ⟨rfl, by decide⟩]
        | seekNextPair =>
          rw [runS_err _ .seekNextPair 58 ⟨rfl, by decide, by decide⟩,
            runS_err _ .seekNextPair 58 ⟨rfl, by decide, by decide⟩]
        | objectEnd =>
          rw [runS_err _ .objectEnd 58 ⟨rfl, trivial⟩, runS_err _ .objectEnd 58 ⟨rfl, trivial⟩]
      | comma =>
        simp only [tokBytes, List.cons_append, List.nil_append]
        cases st with
        | seekKeyEnd => exact absurd rfl hst
        | seekNextPair =>
          rw [runS_nextPair_comma, runS_nextPair_comma]
          exact ih gs .seekKeyStart kb s (by simp) hwsgs hcts
        | seekObjectStart =>
          rw [runS_err _ .seekObjectStart 44 ⟨rfl, by decide⟩, runS_err _ .seekObjectStart 44 ⟨rfl, by decide⟩]
        | seekKeyStart =>
          rw [runS_err _ .seekKeyStart 44 ⟨rfl, by decide⟩, runS_err _ .seekKeyStart 44 ⟨rfl, by decide⟩]
        | seekColon =>
          rw [runS_err _ .seekColon 44 ⟨rfl, by decide⟩, runS_err _ .seekColon 44 ⟨rfl, by decide⟩]
        | seekValueStart =>
          rw [runS_err _ .seekValueStart 44 ⟨rfl, by decide⟩, runS_err _ .seekValueStart 44 ⟨rfl, by decide⟩]
        | objectEnd =>
          rw [runS_err _ .objectEnd 44 ⟨rfl, trivial⟩, runS_err _ .objectEnd 44 ⟨rfl, trivial⟩]
      | str b =>
        have hct34 : 34 ∉ b := hct
        simp only [tokBytes, List.append_assoc, List.cons_append, List.nil_append]
        cases st with
        | seekKeyEnd => exact absurd rfl hst
        | seekObjectStart =>
          rw [runS_err _ .seekObjectStart 34 ⟨rfl, by decide⟩, runS_err _ .seekObjectStart 34 ⟨rfl, by decide⟩]
        | seekColon =>
          rw [runS_err _ .seekColon 34 ⟨rfl, by decide⟩, runS_err _ .seekColon 34 ⟨rfl, by decide⟩]
        | seekNextPair =>
          rw [runS_err _ .seekNextPair 34 ⟨rfl, by decide, by decide⟩,
            runS_err _ .seekNextPair 34 ⟨rfl, by decide, by decide⟩]
        | objectEnd =>
          rw [runS_err _ .objectEnd 34 ⟨rfl, trivial⟩, runS_err _ .objectEnd 34 ⟨rfl, trivial⟩]
        | seekKeyStart =>
          rw [runS_keyStart_quote, runS_keyStart_quote]
          by_cases h92 : 92 ∈ b
          · obtain ⟨b1, b2, heq, h92b1⟩ := first_backslash b h92
            have h34b1 : 34 ∉ b1 := fun hm =>
              hct34 (by rw [heq]; exact List.mem_append_left _ hm)
            rw [show b ++ 34 :: renderToks gs ts =
                b1 ++ 92 :: (b2 ++ 34 :: renderToks gs ts) from by rw [heq]; simp]
            rw [show b ++ 34 :: renderToks [] ts =
                b1 ++ 92 :: (b2 ++ 34 :: renderToks [] ts) from by rw [heq]; simp]
            rw [runS_keyEnd_backslash _ b1 h34b1 h92b1,
              runS_keyEnd_backslash _ b1 h34b1 h92b1]
          · rw [runS_keyEnd_clean _ b hct34 h92, runS_keyEnd_clean _ b hct34 h92]
            simp only [List.nil_append]
            exact ih gs .seekColon b s (by simp) hwsgs hcts
        | seekValueStart =>
          rw [runS_valueStart_quote _ (pass0Handler_HB prims),
            runS_valueStart_quote _ (pass0Handler_HB prims)]
          by_cases h92 : 92 ∈ b
          · obtain ⟨b1, b2, heq, h92b1⟩ := first_backslash b h92
            have h34b1 : 34 ∉ b1 := fun hm =>
              hct34 (by rw [heq]; exact List.mem_append_left _ hm)
            have hrsv : ∀ X : List Nat,
                readStringValue (b ++ 34 :: X) = .error .escapeUnsupported := by
              intro X
              rw [heq, show (b1 ++ 92 :: b2) ++ 34 :: X =
                b1 ++ 92 :: (b2 ++ 34 :: X) from by simp]
              exact readStringValue_backslash b1 h34b1 h92b1 _
            have hh : ∀ X : List Nat, pass0Handler prims kb (b ++ 34 :: X) s =
                (if kb = dataKey then Except.error PkgErr.escapeUnsupported
                 else if kb = signingPublicKeyDigestKey then
                   Except.error PkgErr.escapeUnsupported
                 else if kb = signatureKey then Except.error PkgErr.escapeUnsupported
                 else Except.error (PkgErr.unexpectedKey kb)) := by
              intro X
              unfold pass0Handler jsonReadBase64Value
              simp only [hrsv X]
            simp only [hh]
          · have hrc := readStringValue_clean b hct34 h92
            by_cases h1 : kb = dataKey
            · have hh : ∀ X : List Nat, pass0Handler prims kb (b ++ 34 :: X) s =
                  .ok (true, X, { s with hashInput := s.hashInput ++ b }) := by
                intro X
                unfold pass0Handler
                rw [if_pos h1]
                simp only [hrc X]
              simp only [hh]
              exact ih gs .seekNextPair kb _ (by simp) hwsgs hcts
            · by_cases h2 : kb = signingPublicKeyDigestKey
              · cases hdec : prims.base64Decode b with
                | none =>
                  have hh : ∀ X : List Nat, pass0Handler prims kb (b ++ 34 :: X) s =
                      .error .base64Error := by
                    intro X
                    unfold pass0Handler jsonReadBase64Value
                    rw [if_neg h1, if_pos h2]
                    simp only [hrc X, hdec]
                  simp only [hh]
                | some d =>
                  have hh : ∀ X : List Nat, pass0Handler prims kb (b ++ 34 :: X) s =
                      .ok (true, X, { s with jsonSigningPublicKey := some d }) := by
                    intro X
                    unfold pass0Handler jsonReadBase64Value
                    rw [if_neg h1, if_pos h2]
                    simp only [hrc X, hdec]
                  simp only [hh]
                  exact ih gs .seekNextPair kb _ (by simp) hwsgs hcts
              · by_cases h3 : kb = signatureKey
                · cases hdec : prims.base64Decode b with
                  | none =>
                    have hh : ∀ X : List Nat, pass0Handler prims kb (b ++ 34 :: X) s =
                        .error .base64Error := by
                      intro X
                      unfold pass0Handler jsonReadBase64Value
                      rw [if_neg h1, if_neg h2, if_pos h3]
                      simp only [hrc X, hdec]
                    simp only [hh]
                  | some d =>
                    have hh : ∀ X : List Nat, pass0Handler prims kb (b ++ 34 :: X) s =
                        .ok (true, X, { s with jsonSignature := some d }) := by
                      intro X
                      unfold pass0Handler jsonReadBase64Value
                      rw [if_neg h1, if_neg h2, if_pos h3]
                      simp only [hrc X, hdec]
                    simp only [hh]
                    exact ih gs .seekNextPair kb _ (by simp) hwsgs hcts
                · have hh : ∀ X : List Nat, pass0Handler prims kb (b ++ 34 :: X) s =
                      .error (.unexpectedKey kb) := by
                    intro X
                    unfold pass0Handler
                    rw [if_neg h1, if_neg h2, if_neg h3]
                  simp only [hh]

/-- Equivalence of pass-1 outcomes up to the position of the captured
reader: errors match exactly; successes agree on the collected fields and
capture readers whose drained content (value bytes or read error) is the
same. -/
def P1Rel : Except PkgErr Pass1State → Except PkgErr Pass1State → Prop
  | .error e, .error e1 => e = e1
  | .ok st, .ok st1 =>
    st.jsonSigningPublicKey = st1.jsonSigningPublicKey ∧
    st.jsonSignature = st1.jsonSignature ∧
    ((st.jsonData = none ∧ st1.jsonData = none) ∨
      (∃ p p1, st.jsonData = some p ∧ st1.jsonData = some p1 ∧
        drainValue p = drainValue p1))
  | _, _ => False

/-- P1Rel is reflexive. -/
theorem P1Rel_refl : ∀ r, P1Rel r r
  | .error _ => rfl
  | .ok st => ⟨rfl, rfl, by
      cases hj : st.jsonData with
      | none => exact Or.inl ⟨rfl, rfl⟩
      | some p => exact Or.inr ⟨p, p, rfl, rfl, rfl⟩⟩

/-- Pass-1 streaming over a gapped rendering relates to the gap-free run:
identical errors, identical collected fields, and captured readers whose
drained content agrees (their positions differ only in the trailing gapped
bytes past the value's closing quote). -/
theorem sim1 (prims : Prims) :
    ∀ (toks : List JTok) (gaps : List (List Nat)) (st : JState) (kb : List Nat)
      (s : Pass1State),
      st ≠ .seekKeyEnd → WSgaps gaps → (∀ t ∈ toks, cleanTok t) →
      P1Rel (runS (pass1Handler prims) st kb (renderToks gaps toks) s)
        (runS (pass1Handler prims) st kb (renderToks [] toks) s) := by
  intro toks
  induction toks with
  | nil =>
    intro gaps st kb s hst hws _
    rw [show renderToks gaps [] = gaps.flatten from by cases gaps <;> rfl,
      show renderToks [] ([] : List JTok) = [] from rfl]
    have hwsf : ∀ b ∈ gaps.flatten, isWhitespace b = true := by
      intro b hb
      obtain ⟨g, hg, hbg⟩ := List.mem_flatten.mp hb
      exact hws g hg b hbg
    have hskip := runS_ws (pass1Handler prims) st hst gaps.flatten hwsf kb [] s
    rw [List.append_nil] at hskip
    rw [hskip]
    exact P1Rel_refl _
  | cons t ts ih =>
    intro gaps st kb s hst hws hclean
    have hct := hclean t (by simp)
    have hcts : ∀ x ∈ ts, cleanTok x := fun x hx => hclean x (List.mem_cons_of_mem _ hx)
    cases gaps with
    | nil => exact P1Rel_refl _
    | cons g gs =>
      have hwsg : ∀ b ∈ g, isWhitespace b = true := hws g (by simp)
      have hwsgs : WSgaps gs := fun g1 hg1 => hws g1 (List.mem_cons_of_mem _ hg1)
      rw [show renderToks (g :: gs) (t :: ts) = g ++ (tokBytes t ++ renderToks gs ts) from by
        simp [renderToks]]
      rw [runS_ws (pass1Handler prims) st hst g hwsg]
      rw [show renderToks ([] : List (List Nat)) (t :: ts) =
        tokBytes t ++ renderToks [] ts from rfl]
      cases t with
      | lbrace =>
        simp only [tokBytes, List.cons_append, List.nil_append]
        cases st with
        | seekKeyEnd => exact absurd rfl hst
        | seekObjectStart =>
          rw [runS_open, runS_open]
          exact ih gs .seekKeyStart kb s (by simp) hwsgs hcts
        | seekKeyStart =>
          rw [runS_err _ .seekKeyStart 123 ⟨rfl, by decide⟩,
            runS_err _ .seekKeyStart 123 ⟨rfl, by decide⟩]
          exact P1Rel_refl _
        | seekColon =>
          rw [runS_err _ .seekColon 123 ⟨rfl, by decide⟩,
            runS_err _ .seekColon 123 ⟨rfl, by decide⟩]
          exact P1Rel_refl _
        | seekValueStart =>
          rw [runS_err _ .seekValueStart 123 ⟨rfl, by decide⟩,
            runS_err _ .seekValueStart 123 ⟨rfl, by decide⟩]
          exact P1Rel_refl _
        | seekNextPair =>
          rw [runS_err _ .seekNextPair 123 ⟨rfl, by decide, by decide⟩,
            runS_err _ .seekNextPair 123 ⟨rfl, by decide, by decide⟩]
          exact P1Rel_refl _
        | objectEnd =>
          rw [runS_err _ .objectEnd 123 ⟨rfl, trivial⟩,
            runS_err _ .objectEnd 123 ⟨rfl, trivial⟩]
          exact P1Rel_refl _
      | rbrace =>
        simp only [tokBytes, List.cons_append, List.nil_append]
        cases st with
        | seekKeyEnd => exact absurd rfl hst
        | seekNextPair =>
          rw [runS_nextPair_brace, runS_nextPair_brace]
          exact ih gs .objectEnd kb s (by simp) hwsgs hcts
        | seekObjectStart =>
          rw [runS_err _ .seekObjectStart 125 ⟨rfl, by decide⟩,
            runS_err _ .seekObjectStart 125 ⟨rfl, by decide⟩]
          exact P1Rel_refl _
        | seekKeyStart =>
          rw [runS_err _ .seekKeyStart 125 ⟨rfl, by decide⟩,
            runS_err _ .seekKeyStart 125 ⟨rfl, by decide⟩]
          exact P1Rel_refl _
        | seekColon =>
          rw [runS_err _ .seekColon 125 ⟨rfl, by decide⟩,
            runS_err _ .seekColon 125 ⟨rfl, by decide⟩]
          exact P1Rel_refl _
        | seekValueStart =>
          rw [runS_err _ .seekValueStart 125 ⟨rfl, by decide⟩,
            runS_err _ .seekValueStart 125 ⟨rfl, by decide⟩]
          exact P1Rel_refl _
        | objectEnd =>
          rw [runS_err _ .objectEnd 125 ⟨rfl, trivial⟩,
            runS_err _ .objectEnd 125 ⟨rfl, trivial⟩]
          exact P1Rel_refl _
      | colon =>
        simp only [tokBytes, List.cons_append, List.nil_append]
        cases st with
        | seekKeyEnd => exact absurd rfl hst
        | seekColon =>
          rw [runS_colon, runS_colon]
          exact ih gs .seekValueStart kb s (by simp) hwsgs hcts
        | seekObjectStart =>
          rw [runS_err _ .seekObjectStart 58 ⟨rfl, by decide⟩,
            runS_err _ .seekObjectStart 58 ⟨rfl, by decide⟩]
          exact P1Rel_refl _
        | seekKeyStart =>
          rw [runS_err _ .seekKeyStart 58 ⟨rfl, by decide⟩,
            runS_err _ .seekKeyStart 58 ⟨rfl, by decide⟩]
          exact P1Rel_refl _
        | seekValueStart =>
          rw [runS_err _ .seekValueStart 58 ⟨rfl, by decide⟩,
            runS_err _ .seekValueStart 58 ⟨rfl, by decide⟩]
          exact P1Rel_refl _
        | seekNextPair =>
          rw [runS_err _ .seekNextPair 58 ⟨rfl, by decide, by decide⟩,
            runS_err _ .seekNextPair 58 ⟨rfl, by decide, by decide⟩]
          exact P1Rel_refl _
        | objectEnd =>
          rw [runS_err _ .objectEnd 58 ⟨rfl, trivial⟩,
            runS_err _ .objectEnd 58 ⟨rfl, trivial⟩]
          exact P1Rel_refl _
      | comma =>
        simp only [tokBytes, List.cons_append, List.nil_append]
        cases st with
        | seekKeyEnd => exact absurd rfl hst
        | seekNextPair =>
          rw [runS_nextPair_comma, runS_nextPair_comma]
          exact ih gs .seekKeyStart kb s (by simp) hwsgs hcts
        | seekObjectStart =>
          rw [runS_err _ .seekObjectStart 44 ⟨rfl, by decide⟩,
            runS_err _ .seekObjectStart 44 ⟨rfl, by decide⟩]
          exact P1Rel_refl _
        | seekKeyStart =>
          rw [runS_err _ .seekKeyStart 44 ⟨rfl, by decide⟩,
            runS_err _ .seekKeyStart 44 ⟨rfl, by decide⟩]
          exact P1Rel_refl _
        | seekColon =>
          rw [runS_err _ .seekColon 44 ⟨rfl, by decide⟩,
            runS_err _ .seekColon 44 ⟨rfl, by decide⟩]
          exact P1Rel_refl _
        | seekValueStart =>
          rw [runS_err _ .seekValueStart 44 ⟨rfl, by decide⟩,
            runS_err _ .seekValueStart 44 ⟨rfl, by decide⟩]
          exact P1Rel_refl _
        | objectEnd =>
          rw [runS_err _ .objectEnd 44 ⟨rfl, trivial⟩,
            runS_err _ .objectEnd 44 ⟨rfl, trivial⟩]
          exact P1Rel_refl _
      | str b =>
        have hct34 : 34 ∉ b := hct
        simp only [tokBytes, List.append_assoc, List.cons_append, List.nil_append]
        cases st with
        | seekKeyEnd => exact absurd rfl hst
        | seekObjectStart =>
          rw [runS_err _ .seekObjectStart 34 ⟨rfl, by decide⟩,
            runS_err _ .seekObjectStart 34 ⟨rfl, by decide⟩]
          exact P1Rel_refl _
        | seekColon =>
          rw [runS_err _ .seekColon 34 ⟨rfl, by decide⟩,
            runS_err _ .seekColon 34 ⟨rfl, by decide⟩]
          exact P1Rel_refl _
        | seekNextPair =>
          rw [runS_err _ .seekNextPair 34 ⟨rfl, by decide, by decide⟩,
            runS_err _ .seekNextPair 34 ⟨rfl, by decide, by decide⟩]
          exact P1Rel_refl _
        | objectEnd =>
          rw [runS_err _ .objectEnd 34 ⟨rfl, trivial⟩,
            runS_err _ .objectEnd 34 ⟨rfl, trivial⟩]
          exact P1Rel_refl _
        | seekKeyStart =>
          rw [runS_keyStart_quote, runS_keyStart_quote]
          by_cases h92 : 92 ∈ b
          · obtain ⟨b1, b2, heq, h92b1⟩ := first_backslash b h92
            have h34b1 : 34 ∉ b1 := fun hm =>
              hct34 (by rw [heq]; exact List.mem_append_left _ hm)
            rw [show b ++ 34 :: renderToks gs ts =
                b1 ++ 92 :: (b2 ++ 34 :: renderToks gs ts) from by rw [heq]; simp]
            rw [show b ++ 34 :: renderToks [] ts =
                b1 ++ 92 :: (b2 ++ 34 :: renderToks [] ts) from by rw [heq]; simp]
            rw [runS_keyEnd_backslash _ b1 h34b1 h92b1,
              runS_keyEnd_backslash _ b1 h34b1 h92b1]
            exact P1Rel_refl _
          · rw [runS_keyEnd_clean _ b hct34 h92, runS_keyEnd_clean _ b hct34 h92]
            simp only [List.nil_append]
            exact ih gs .seekColon b s (by simp) hwsgs hcts
        | seekValueStart =>
          rw [runS_valueStart_quote _ (pass1Handler_HB prims),
            runS_valueStart_quote _ (pass1Handler_HB prims)]
          by_cases h1 : kb = dataKey
          · have hh : ∀ X : List Nat, pass1Handler prims kb (b ++ 34 :: X) s =
                .ok (false, b ++ 34 :: X, { s with jsonData := some (b ++ 34 :: X) }) := by
              intro X
              unfold pass1Handler
              rw [if_pos h1]
            simp only [hh]
            refine ⟨rfl, rfl, Or.inr ⟨b ++ 34 :: renderToks gs ts,
              b ++ 34 :: renderToks [] ts, rfl, rfl, ?_⟩⟩
            by_cases h92 : 92 ∈ b
            · obtain ⟨b1, b2, heq, h92b1⟩ := first_backslash b h92
              have h34b1 : 34 ∉ b1 := fun hm =>
                hct34 (by rw [heq]; exact List.mem_append_left _ hm)
              have hrsv : ∀ X : List Nat,
                  readStringValue (b ++ 34 :: X) = .error .escapeUnsupported := by
                intro X
                rw [heq, show (b1 ++ 92 :: b2) ++ 34 :: X =
                  b1 ++ 92 :: (b2 ++ 34 :: X) from by simp]
                exact readStringValue_backslash b1 h34b1 h92b1 _
              unfold drainValue
              rw [hrsv, hrsv]
            · have hrc := readStringValue_clean b hct34 h92
              unfold drainValue
              rw [hrc, hrc]
              rfl
          · by_cases h92 : 92 ∈ b
            · obtain ⟨b1, b2, heq, h92b1⟩ := first_backslash b h92
              have h34b1 : 34 ∉ b1 := fun hm =>
                hct34 (by rw [heq]; exact List.mem_append_left _ hm)
              have hrsv : ∀ X : List Nat,
                  readStringValue (b ++ 34 :: X) = .error .escapeUnsupported := by
                intro X
                rw [heq, show (b1 ++ 92 :: b2) ++ 34 :: X =
                  b1 ++ 92 :: (b2 ++ 34 :: X) from by simp]
                exact readStringValue_backslash b1 h34b1 h92b1 _
              have hh : ∀ X : List Nat, pass1Handler prims kb (b ++ 34 :: X) s =
                  (if kb = signingPublicKeyDigestKey then
                     Except.error PkgErr.escapeUnsupported
                   else if kb = signatureKey then Except.error PkgErr.escapeUnsupported
                   else Except.error (PkgErr.unexpectedKey kb)) := by
                intro X
                unfold pass1Handler jsonReadBase64Value
                rw [if_neg h1]
                simp only [hrsv X]
              simp only [hh]
              exact P1Rel_refl _
            · have hrc := readStringValue_clean b hct34 h92
              by_cases h2 : kb = signingPublicKeyDigestKey
              · cases hdec : prims.base64Decode b with
                | none =>
                  have hh : ∀ X : List Nat, pass1Handler prims kb (b ++ 34 :: X) s =
                      .error .base64Error := by
                    intro X
                    unfold pass1Handler jsonReadBase64Value
                    rw [if_neg h1, if_pos h2]
                    simp only [hrc X, hdec]
                  simp only [hh]
                  exact P1Rel_refl _
                | some d =>
                  have hh : ∀ X : List Nat, pass1Handler prims kb (b ++ 34 :: X) s =
                      .ok (true, X, { s with jsonSigningPublicKey := some d }) := by
                    intro X
                    unfold pass1Handler jsonReadBase64Value
                    rw [if_neg h1, if_pos h2]
                    simp only [hrc X, hdec]
                  simp only [hh]
                  exact ih gs .seekNextPair kb _ (by simp) hwsgs hcts
              · by_cases h3 : kb = signatureKey
                · cases hdec : prims.base64Decode b with
                  | none =>
                    have hh : ∀ X : List Nat, pass1Handler prims kb (b ++ 34 :: X) s =
                        .error .base64Error := by
                      intro X
                      unfold pass1Handler jsonReadBase64Value
                      rw [if_neg h1, if_neg h2, if_pos h3]
                      simp only [hrc X, hdec]
                    simp only [hh]
                    exact P1Rel_refl _
                  | some d =>
                    have hh : ∀ X : List Nat, pass1Handler prims kb (b ++ 34 :: X) s =
                        .ok (true, X, { s with jsonSignature := some d }) := by
                      intro X
                      unfold pass1Handler jsonReadBase64Value
                      rw [if_neg h1, if_neg h2, if_pos h3]
                      simp only [hrc X, hdec]
                    simp only [hh]
                    exact ih gs .seekNextPair kb _ (by simp) hwsgs hcts
                · have hh : ∀ X : List Nat, pass1Handler prims kb (b ++ 34 :: X) s =
                      .error (.unexpectedKey kb) := by
                    intro X
                    unfold pass1Handler
                    rw [if_neg h1, if_neg h2, if_neg h3]
                  simp only [hh]
                  exact P1Rel_refl _

instance cleanTokDecidable (t : JTok) : Decidable (cleanTok t) := by
  cases t <;> unfold cleanTok <;> exact inferInstance

instance wsGapsDecidable (gs : List (List Nat)) : Decidable (WSgaps gs) := by
  unfold WSgaps
  exact inferInstance

/-- The streaming verdict over decompressed bytes is unchanged by
whitespace inserted between tokens. -/
theorem packageVerdictPlain_ws (prims : Prims) (pk : List Nat)
    (toks : List JTok) (gaps : List (List Nat))
    (hws : WSgaps gaps) (hclean : ∀ t ∈ toks, cleanTok t) :
    packageVerdictPlain prims (renderToks gaps toks) pk =
      packageVerdictPlain prims (renderToks [] toks) pk := by
  have h0 : streamJSON (pass0Handler prims) (renderToks gaps toks) initialPass0 =
      streamJSON (pass0Handler prims) (renderToks [] toks) initialPass0 :=
    sim0 prims toks gaps .seekObjectStart [] initialPass0 (by simp) hws hclean
  have hp0 : pass0Run prims (renderToks gaps toks) pk =
      pass0Run prims (renderToks [] toks) pk := by
    unfold pass0Run
    rw [h0]
  have h1 : P1Rel
      (streamJSON (pass1Handler prims) (renderToks gaps toks) initialPass1)
      (streamJSON (pass1Handler prims) (renderToks [] toks) initialPass1) :=
    sim1 prims toks gaps .seekObjectStart [] initialPass1 (by simp) hws hclean
  unfold packageVerdictPlain streamingReadPlain
  rw [hp0]
  cases hres : pass0Run prims (renderToks [] toks) pk with
  | error e => rfl
  | ok u =>
    cases u
    unfold pass1Run
    cases hA : streamJSON (pass1Handler prims) (renderToks gaps toks) initialPass1 with
    | error e =>
      cases hB : streamJSON (pass1Handler prims) (renderToks [] toks) initialPass1 with
      | error e1 =>
        rw [hA, hB] at h1
        have he : e = e1 := h1
        rw [he]
      | ok st1 =>
        rw [hA, hB] at h1
        exact h1.elim
    | ok st =>
      cases hB : streamJSON (pass1Handler prims) (renderToks [] toks) initialPass1 with
      | error e1 =>
        rw [hA, hB] at h1
        exact h1.elim
      | ok st1 =>
        rw [hA, hB] at h1
        obtain ⟨_, _, hdata⟩ := h1
        rcases hdata with ⟨hn, hn1⟩ | ⟨p, p1, hp, hp1, hdr⟩
        · simp [hn, hn1]
        · simp [hp, hp1, hdr]

/-- C8: whitespace tolerance of the streaming verifier. For every package
whose decompressed envelope is a token sequence of the limited grammar, and
every insertion of whitespace bytes (space, tab, CR, LF - the whitespace the
grammar admits) between those tokens, the verdict of the streaming read
(success with the payload bytes obtained from the returned reader, or the
error produced) is unchanged. -/
theorem whitespace_tolerance (prims : Prims) (pk : List Nat)
    (toks : List JTok) (gaps : List (List Nat)) (file file0 : List Nat)
    (hws : WSgaps gaps) (hclean : ∀ t ∈ toks, cleanTok t)
    (hfile : prims.decompress file = some (renderToks gaps toks))
    (hfile0 : prims.decompress file0 = some (renderToks [] toks)) :
    packageVerdict prims file pk = packageVerdict prims file0 pk := by
  unfold packageVerdict StreamingReadAuthenticatedDataPackage
  rw [hfile, hfile0]
  have hv := packageVerdictPlain_ws prims pk toks gaps hws hclean
  unfold packageVerdictPlain at hv
  exact hv

/-- The token sequence of a concrete three-member envelope, used by the C8
witness. -/
def toksT : List JTok :=
  [.lbrace, .str dataKey, .colon, .str [104, 105], .comma,
   .str signingPublicKeyDigestKey, .colon, .str [51, 52, 54, 50], .comma,
   .str signatureKey, .colon, .str [54, 56, 54, 57], .rbrace]

/-- Witness for C8: inserting concrete whitespace gaps between the tokens
of a concrete envelope leaves the verdict unchanged. -/
theorem whitespace_tolerance_witness :
    packageVerdict testPrims (renderToks [[32, 32], [9], [], [10], [13]] toksT) [52, 98] =
      packageVerdict testPrims (renderToks [] toksT) [52, 98] :=
  whitespace_tolerance testPrims [52, 98] toksT [[32, 32], [9], [], [10], [13]]
    (renderToks [[32, 32], [9], [], [10], [13]] toksT) (renderToks [] toksT)
    (by decide) (by decide) (by rfl) (by rfl)

end AuthPackage
